import Mathlib

/-!
Verification model of the `expr` library (`src/expr.h`): a math-expression
tokenizer, recursive-descent parser, and expression trees supporting symbolic
differentiation, simplification and numeric evaluation.

Modelling conventions, used throughout:

* IEEE-754 doubles that appear syntactically in the program (number literals in
  trees, the arithmetic done by the simplifier and differentiator on them) are
  modelled as exact rationals `ℚ`; numeric evaluation (`Evaluate`) is modelled
  over idealized reals, with quiet NaN modelled as `none : Option ℝ`.
  "Up to IEEE-754 rounding" is rendered as exact equality of the idealized
  values.  The special total cases of C `pow` that matter here are preserved:
  `pow(x, 0) = 1` for every `x` (NaN included) and `pow(1, y) = 1` for every
  `y` (NaN included).
* The named constant `e` is idealized as the exact real `Real.exp 1` and `pi`
  as `Real.pi` (the program stores the closest doubles).
* `std::unordered_map` is modelled as a lookup function `String → Option _`;
  iteration order never matters for the claims below (the lexer's word-bounded
  alternation is order-independent).
-/

namespace ExprSpec

/-! ## Tokens and the lexer (src/expr.h lines 461-515, 1447-1552)

The C++ lexer drives `std::regex` (ECMAScript) over the input with the pattern
`function | constant | number | operator | variable | parenthesis | modulus`,
where `function` and `constant` are word-bounded alternations over the current
registry contents, `number` is `-?\d+(\.\d+)?`, `operator` is the character
class `[+\-*/^=]`, `variable` is `[a-zA-Z]+`.  The model below reproduces the
scan directly on characters: at each position the first alternative that
matches wins, a position with no match is skipped, and word boundaries `\b`
are judged against the actual previous character of the input. -/

/-- Function ids registered by `Configuration::Init` (src lines 1388-1403).
Note `exp` is absent: `Init` never registers `ExponentialFunction`. -/
def funcIds : List String :=
  ["sin", "cos", "tan", "cot", "sec", "csc", "sinh", "cosh", "tanh", "coth",
   "sech", "csch", "log", "ln", "sqrt", "abs"]

/-- Constant names registered by `Configuration::Init` (src lines 1405-1406). -/
def constNames : List String := ["e", "pi"]

/-- Regex word character `\w` = `[A-Za-z0-9_]`. -/
def isWordChar (c : Char) : Bool := c.isAlphanum || c = '_'

/-- The tail of a numeric literal `\d+(\.\d+)?` starting at a digit: the match
of the digit run plus an optional fraction part. -/
def numLit (cs : List Char) : List Char :=
  let ds := cs.takeWhile Char.isDigit
  match cs.drop ds.length with
  | '.' :: more =>
    let fs := more.takeWhile Char.isDigit
    if fs.isEmpty then ds else ds ++ '.' :: fs
  | _ => ds

/-- One pass of `std::sregex_iterator` over the input: the list of matched
lexeme strings, in order.  `prev` is the character just before the current
position (for `\b`), `fuel` bounds the recursion (every step consumes at
least one character, so `input.length` is always enough fuel). -/
def scanAux : Nat → Option Char → List Char → List String
  | 0, _, _ => []
  | _, _, [] => []
  | Nat.succ f, prev, c :: rest =>
    if c.isAlpha then
      -- function/constant alternatives: `\b(id|...)\b`; with the trailing \b
      -- they match exactly when the whole word-character run equals an id.
      let boundary : Bool := match prev with
        | none => true
        | some p => !(isWordChar p)
      let word := (c :: rest).takeWhile isWordChar
      let wordS := String.mk word
      if boundary && (funcIds.contains wordS || constNames.contains wordS) then
        wordS :: scanAux f word.getLast? ((c :: rest).drop word.length)
      else
        -- variable alternative `[a-zA-Z]+` (letters only, greedy)
        let letters := (c :: rest).takeWhile Char.isAlpha
        String.mk letters :: scanAux f letters.getLast? ((c :: rest).drop letters.length)
    else if c.isDigit then
      let num := numLit (c :: rest)
      String.mk num :: scanAux f num.getLast? ((c :: rest).drop num.length)
    else if c = '-' then
      -- the number alternative `-?\d+(\.\d+)?` precedes the operator
      -- alternative, so `-` directly followed by a digit is absorbed into
      -- one negative literal match, regardless of what precedes it.
      if (rest.head?.map Char.isDigit).getD false then
        let num := numLit rest
        String.mk ('-' :: num) :: scanAux f num.getLast? (rest.drop num.length)
      else
        "-" :: scanAux f (some '-') rest
    else if c = '+' || c = '*' || c = '/' || c = '^' || c = '=' then
      String.mk [c] :: scanAux f (some c) rest
    else if c = '(' || c = ')' then
      String.mk [c] :: scanAux f (some c) rest
    else if c = '|' then
      String.mk [c] :: scanAux f (some c) rest
    else
      -- no alternative matches (whitespace etc.): the regex iterator skips it
      scanAux f (some c) rest

/-- `TokenType` (src lines 461-472). -/
inductive TokenType : Type
  | Number
  | Operator
  | Variable
  | Constant
  | Function
  | Parenthesis
  | ModulusDelimiter
  | Equals
  | Unknown
deriving DecidableEq, Repr

/-- The `uint32_t` value of a `TokenType` (used in a parser diagnostic). -/
def typeIdx : TokenType → Nat
  | .Number => 0
  | .Operator => 1
  | .Variable => 2
  | .Constant => 3
  | .Function => 4
  | .Parenthesis => 5
  | .ModulusDelimiter => 6
  | .Equals => 7
  | .Unknown => 8

/-- `Token` (src lines 474-483). -/
structure Token where
  type : TokenType
  value : String
deriving DecidableEq, Repr

/-- Full match against `-?\d+(\.\d+)?`. -/
def digitsThenFrac (cs : List Char) : Bool :=
  let ds := cs.takeWhile Char.isDigit
  if ds.isEmpty then false
  else
    match cs.drop ds.length with
    | [] => true
    | '.' :: more => !more.isEmpty && more.all Char.isDigit
    | _ => false

def isNumberLit (s : String) : Bool :=
  match s.toList with
  | '-' :: rest => digitsThenFrac rest
  | cs => digitsThenFrac cs

def isOperatorStr (s : String) : Bool :=
  s = "+" || s = "-" || s = "*" || s = "/" || s = "^" || s = "="

def isVariableStr (s : String) : Bool :=
  !s.isEmpty && s.toList.all Char.isAlpha

/-- The `else if` classification chain of `Tokenizer::Tokenize`
(src lines 1473-1494).  Note the second parenthesis test on line 1490: the
source tests `parenthesisPattern` again where `modulusDelimiterPattern` was
clearly intended, so the `ModulusDelimiter` branch (and its `insideModulus`
toggle) is unreachable and `|` is classified `Unknown`. -/
def classify (v : String) : TokenType :=
  if funcIds.contains v then .Function
  else if constNames.contains v then .Constant
  else if isNumberLit v then .Number
  else if isOperatorStr v then (if v = "=" then .Equals else .Operator)
  else if isVariableStr v then .Variable
  else if v = "(" || v = ")" then .Parenthesis
  else if v = "(" || v = ")" then .ModulusDelimiter
  else .Unknown

/-- `Tokenizer::IsNegativeSign` (src lines 1543-1552).  `tokens` is the list
emitted so far; the source reads `tokens[tokens.size()-1]`, which is only ever
reached with a nonempty list. -/
def IsNegativeSign (index : Nat) (tokens : List Token) (insideModulus : Bool) : Bool :=
  if index = 0 then true
  else
    match tokens.getLast? with
    | none => false
    | some prev =>
      prev.type == TokenType.Operator
        || (prev.type == TokenType.Parenthesis && prev.value == "(")
        || (prev.type == TokenType.ModulusDelimiter && insideModulus)

/-- The token-emission loop of `Tokenizer::Tokenize` (src lines 1467-1512):
`i` counts loop iterations; a `-` classified `Operator` in negative-sign
position swallows the text of the following match into a single `Number`
token.  `insideModulus` is threaded faithfully; it can never become true
because its toggle sits in the unreachable classification branch. -/
def mergeLoop : Nat → List Token → Bool → List String → List Token
  | _, tokens, _, [] => tokens
  | i, tokens, insideModulus, v :: rest =>
    let t := classify v
    if t == TokenType.Operator && v == "-" && IsNegativeSign i tokens insideModulus then
      match rest with
      | [] => tokens
      | v2 :: rest2 =>
        mergeLoop (i + 1) (tokens ++ [⟨TokenType.Number, "-" ++ v2⟩]) insideModulus rest2
    else
      mergeLoop (i + 1) (tokens ++ [⟨t, v⟩]) insideModulus rest

/-- `Tokenizer::Tokenize` (src lines 1447-1515). -/
def Tokenize (s : String) : List Token :=
  mergeLoop 0 [] false (scanAux s.length none s.toList)

/-! ## The expression tree (src/expr.h lines 162-432)

One constructor per `AstNode` subclass.  A `NumberNode`'s double is modelled
as an exact rational.  A `FunctionNode` stores its function id; the C++
constructor resolves the id against the registry and, when the lookup fails,
replaces the argument by `ErrorNode("Could not find function <id>")`
(src lines 1370-1376), so in every constructible tree a `Function` node with
an unknown id carries an `Error` argument.  A `ConstantNode` stores its name;
its value (resolved at construction) is recovered by `constValue` below. -/

inductive AstNode : Type
  | Error (msg : String)
  | Number (v : ℚ)
  | Variable (name : String)
  | Constant (name : String)
  | Operator (o : String) (l r : AstNode)
  | Equals (l r : AstNode)
  | Differential (v w : String) (order : Int)
  | Function (id : String) (arg : AstNode)
deriving DecidableEq, Repr

/-- `sameType(node, ErrorNode)` checks used throughout the source. -/
def AstNode.isError : AstNode → Bool
  | .Error _ => true
  | _ => false

/-- `sameType(node, NumberNode)` plus `GetValue()`. -/
def numValue : AstNode → Option ℚ
  | .Number v => some v
  | _ => none

/-! ## Differentiation (src/expr.h lines 180-953) -/

/-- The per-function `Differentiate(respectTo, argument)` dispatch entries
(src lines 528-826): `a` is the argument node and `da` its derivative
(the entries call `argument->Differentiate(respectTo)` themselves; the caller
passes the identical pure value here).  Ids absent from the registry are
unreachable on constructible trees (the `FunctionNode` constructor poisons
their argument with an `Error`, which `FunctionNode::Differentiate` returns
before dispatching); the catch-all mirrors that poisoning. -/
def FuncDifferentiate (id : String) (a da : AstNode) : AstNode :=
  if id = "sin" then .Operator "*" da (.Function "cos" a)
  else if id = "cos" then
    .Operator "*" (.Number (-1)) (.Operator "*" da (.Function "sin" a))
  else if id = "tan" then
    .Operator "*" da (.Operator "^" (.Function "sec" a) (.Number 2))
  else if id = "cot" then
    .Operator "*" (.Number (-1))
      (.Operator "*" da (.Operator "^" (.Function "csc" a) (.Number 2)))
  else if id = "sec" then
    .Operator "*" da (.Operator "*" (.Function "tan" a) (.Function "sec" a))
  else if id = "csc" then
    .Operator "*" (.Number (-1))
      (.Operator "*" da (.Operator "*" (.Function "cot" a) (.Function "csc" a)))
  else if id = "sinh" then .Operator "*" da (.Function "cosh" a)
  else if id = "cosh" then .Operator "*" da (.Function "sinh" a)
  else if id = "tanh" then
    .Operator "*" da (.Operator "^" (.Function "sech" a) (.Number 2))
  else if id = "coth" then
    .Operator "*" (.Number (-1))
      (.Operator "*" da (.Operator "^" (.Function "csch" a) (.Number 2)))
  else if id = "sech" then
    .Operator "*" (.Number (-1))
      (.Operator "*" da (.Operator "*" (.Function "tanh" a) (.Function "sech" a)))
  else if id = "csch" then
    .Operator "*" (.Number (-1))
      (.Operator "*" da (.Operator "*" (.Function "coth" a) (.Function "csch" a)))
  else if id = "log" then
    .Operator "/" da (.Operator "*" (.Function "ln" (.Number 10)) a)
  else if id = "ln" then .Operator "/" da a
  else if id = "sqrt" then
    .Operator "/" da (.Operator "*" (.Number 2) (.Function "sqrt" a))
  else if id = "abs" then
    .Operator "/" (.Operator "*" a da) (.Function "abs" a)
  else .Error ("Could not find function " ++ id)

/-- The `/` branch of `OperatorNode::Differentiate` (src lines 856-889):
special forms for a numeric or named-constant numerator or denominator, then
the general quotient rule. -/
def DivDifferentiate (l r dl dr : AstNode) : AstNode :=
  match l with
  | .Number v =>
    .Operator "*" (.Number (-1))
      (.Operator "*" (.Number v)
        (.Operator "/" dr (.Operator "^" r (.Number 2))))
  | .Constant n =>
    .Operator "*" (.Number (-1))
      (.Operator "*" (.Constant n)
        (.Operator "/" dr (.Operator "^" r (.Number 2))))
  | _ =>
    match r with
    | .Number v => .Operator "/" dl (.Number v)
    | .Constant n => .Operator "/" dl (.Constant n)
    | _ =>
      .Operator "/"
        (.Operator "-" (.Operator "*" r dl) (.Operator "*" l dr))
        (.Operator "^" r (.Number 2))

/-- The general (logarithmic-derivative) form of the `^` branch
(src lines 931-947): `f^g · (g·f′/f + ln(f)·g′)`. -/
def PowDiffGeneral (l r dl dr : AstNode) : AstNode :=
  .Operator "*" (.Operator "^" l r)
    (.Operator "+" (.Operator "*" r (.Operator "/" dl l))
      (.Operator "*" (.Function "ln" l) dr))

/-- The `^` branch of `OperatorNode::Differentiate` (src lines 890-948):
power-rule shortcuts for a `Variable` base with `Number`/`Constant` exponent,
the `ln(a)·a^f·f′` form for a `Number`/`Constant` base, then the general
form.  A `Variable` base whose exponent is neither `Number` nor `Constant`
falls through the base checks into the general form, as in the source. -/
def PowDifferentiate (l r dl dr : AstNode) : AstNode :=
  match l with
  | .Variable vn =>
    match r with
    | .Number rv =>
      if rv = 1 then .Number 1
      else if rv = 0 then .Number 0
      else
        .Operator "*" (.Number rv)
          (.Operator "^" (.Variable vn) (.Number (rv - 1)))
    | .Constant cn =>
      .Operator "*" (.Constant cn)
        (.Operator "^" (.Variable vn) (.Operator "-" (.Constant cn) (.Number 1)))
    | _ => PowDiffGeneral l r dl dr
  | .Number lv =>
    .Operator "*" (.Function "ln" (.Number lv))
      (.Operator "*" (.Operator "^" l r) dr)
  | .Constant cn =>
    .Operator "*" (.Function "ln" (.Constant cn))
      (.Operator "*" (.Operator "^" l r) dr)
  | _ => PowDiffGeneral l r dl dr

/-- `OperatorNode::Differentiate` after its two error checks
(src lines 846-952): `l, r` are the children, `dl, dr` their derivatives. -/
def OperatorDifferentiate (o : String) (l r dl dr : AstNode) : AstNode :=
  if o = "+" then .Operator "+" dl dr
  else if o = "-" then .Operator "-" dl dr
  else if o = "*" then
    .Operator "+" (.Operator "*" dl r) (.Operator "*" l dr)
  else if o = "/" then DivDifferentiate l r dl dr
  else if o = "^" then PowDifferentiate l r dl dr
  else .Error ("Unknown operator " ++ o)

/-- `AstNode::Differentiate(respectTo)`, all subclasses (src: `ErrorNode`
line 190, `NumberNode` line 210, `VariableNode` lines 828-834, `ConstantNode`
line 259, `OperatorNode` lines 836-953, `EqualsNode` lines 317-327,
`DifferentialNode` lines 365-378, `FunctionNode` lines 404-410). -/
def Differentiate : AstNode → String → AstNode
  | .Error m, _ => .Error m
  | .Number _, _ => .Number 0
  | .Variable n, respectTo =>
    if n = respectTo then .Number 1 else .Differential n respectTo 1
  | .Constant _, _ => .Number 0
  | .Operator o l r, respectTo =>
    let dl := Differentiate l respectTo
    let dr := Differentiate r respectTo
    if dl.isError then dl
    else if dr.isError then dr
    else OperatorDifferentiate o l r dl dr
  | .Equals l r, respectTo =>
    let dl := Differentiate l respectTo
    let dr := Differentiate r respectTo
    if dl.isError then dl
    else if dr.isError then dr
    else .Equals dl dr
  | .Differential v w n, respectTo =>
    if respectTo = w then .Differential v w (n + 1)
    else .Operator "*" (.Differential v w (n + 1)) (.Differential w respectTo 1)
  | .Function id a, respectTo =>
    if a.isError then a
    else FuncDifferentiate id a (Differentiate a respectTo)

/-! ## Simplification (src/expr.h lines 528-826, 955-1325)

`OperatorNode::Simplify` first simplifies both children, absorbs `Error`
children, and then applies its rewrite rules; the rules below receive the two
already-simplified children `sl, sr`.  The sequential fall-through of the C++
`if` blocks is modelled by the chain `MulRule → MulRule2 → ... → MulRule5`. -/

/-- The `+` rules (src lines 965-980). -/
def PlusRule (sl sr : AstNode) : AstNode :=
  match numValue sl with
  | some lv =>
    if lv = 0 then sr
    else
      match numValue sr with
      | some rv => .Number (lv + rv)
      | none => .Operator "+" sl sr
  | none =>
    match numValue sr with
    | some rv => if rv = 0 then sl else .Operator "+" sl sr
    | none => .Operator "+" sl sr

/-- The `-` rules (src lines 981-996). -/
def MinusRule (sl sr : AstNode) : AstNode :=
  match numValue sl with
  | some lv =>
    if lv = 0 then .Operator "*" (.Number (-1)) sr
    else
      match numValue sr with
      | some rv => .Number (lv - rv)
      | none => .Operator "-" sl sr
  | none =>
    match numValue sr with
    | some rv => if rv = 0 then sl else .Operator "-" sl sr
    | none => .Operator "-" sl sr

/-- The four-term expansion `(A ± B)(C ± D)` (src lines 1036-1165); only
called with `lo, ro ∈ {+, -}`. -/
def ExpandBoth (lo : String) (ll lr : AstNode) (ro : String) (rl rr : AstNode) : AstNode :=
  if lo = "+" ∧ ro = "+" then
    .Operator "+"
      (.Operator "+" (.Operator "*" ll rl) (.Operator "*" ll rr))
      (.Operator "+" (.Operator "*" lr rl) (.Operator "*" lr rr))
  else if lo = "+" ∧ ro = "-" then
    .Operator "+"
      (.Operator "-" (.Operator "*" ll rl) (.Operator "*" ll rr))
      (.Operator "-" (.Operator "*" lr rl) (.Operator "*" lr rr))
  else if lo = "-" ∧ ro = "+" then
    .Operator "+"
      (.Operator "-" (.Operator "*" ll rl) (.Operator "*" lr rl))
      (.Operator "-" (.Operator "*" ll rr) (.Operator "*" lr rr))
  else
    .Operator "+"
      (.Operator "-" (.Operator "*" ll rl) (.Operator "*" ll rr))
      (.Operator "-" (.Operator "*" lr rr) (.Operator "*" lr rl))

/-- `*`, final step (src lines 1224-1283): distribute a `Number`, `Constant`
or `Function` right factor over a `+`/`-` left factor (the factor is placed
on the left of both products), else reconstruct. -/
def MulRule5 (sl sr : AstNode) : AstNode :=
  match sl with
  | .Operator lo ll lr =>
    if lo = "+" ∨ lo = "-" then
      match sr with
      | .Number _ => .Operator lo (.Operator "*" sr ll) (.Operator "*" sr lr)
      | .Constant _ => .Operator lo (.Operator "*" sr ll) (.Operator "*" sr lr)
      | .Function _ _ => .Operator lo (.Operator "*" sr ll) (.Operator "*" sr lr)
      | _ => .Operator "*" sl sr
    else .Operator "*" sl sr
  | _ => .Operator "*" sl sr

/-- `*`, distribution over a `+`/`-` right factor (src lines 1032-1222):
either the four-term expansion, or a `Number`/`Constant`/`Function` left
factor distributed over the right sum.  Any other left shape falls through. -/
def MulRule4 (sl sr : AstNode) : AstNode :=
  match sr with
  | .Operator ro rl rr =>
    if ro = "+" ∨ ro = "-" then
      match sl with
      | .Operator lo ll lr =>
        if lo = "+" ∨ lo = "-" then ExpandBoth lo ll lr ro rl rr
        else MulRule5 sl sr
      | .Number _ => .Operator ro (.Operator "*" sl rl) (.Operator "*" sl rr)
      | .Constant _ => .Operator ro (.Operator "*" sl rl) (.Operator "*" sl rr)
      | .Function _ _ => .Operator ro (.Operator "*" sl rl) (.Operator "*" sl rr)
      | _ => MulRule5 sl sr
    else MulRule5 sl sr
  | _ => MulRule5 sl sr

/-- `*`, squaring folds (src lines 1014-1030): two syntactically equal
`Constant`s or `Variable`s become a square. -/
def MulRule3 (sl sr : AstNode) : AstNode :=
  match sl, sr with
  | .Constant a, .Constant b =>
    if a = b then .Operator "^" (.Constant a) (.Number 2) else MulRule4 sl sr
  | .Variable a, .Variable b =>
    if a = b then .Operator "^" (.Variable a) (.Number 2) else MulRule4 sl sr
  | _, _ => MulRule4 sl sr

/-- `*`, right `Number` identities (src lines 1006-1012). -/
def MulRule2 (sl sr : AstNode) : AstNode :=
  match numValue sr with
  | some rv =>
    if rv = 1 then sl
    else if rv = 0 then sr
    else MulRule3 sl sr
  | none => MulRule3 sl sr

/-- The `*` rules (src lines 997-1283), starting with the left `Number`
identities (src lines 999-1005). -/
def MulRule (sl sr : AstNode) : AstNode :=
  match numValue sl with
  | some lv =>
    if lv = 1 then sr
    else if lv = 0 then sl
    else MulRule2 sl sr
  | none => MulRule2 sl sr

/-- The `/` rules (src lines 1285-1297). -/
def DivRule (sl sr : AstNode) : AstNode :=
  if numValue sr = some 1 then sl
  else if numValue sl = some 0 then sl
  else .Operator "/" sl sr

/-- The right-`Number` checks of the `^` rules (src lines 1315-1321). -/
def PowRest (sl sr : AstNode) : AstNode :=
  match numValue sr with
  | some rv =>
    if rv = 1 then sl
    else if rv = 0 then .Number 1
    else .Operator "^" sl sr
  | none => .Operator "^" sl sr

/-- The `^` rules (src lines 1298-1322).  Note that `0^0` falls through the
left-`Number` block without returning and is then caught by the
`exponent = 0 → Number(1)` rule. -/
def PowRule (sl sr : AstNode) : AstNode :=
  match numValue sl with
  | some lv =>
    if lv = 0 then
      match numValue sr with
      | none => .Number 0
      | some rv => if rv ≠ 0 then .Number 0 else PowRest sl sr
    else if lv = 1 then .Number 1
    else PowRest sl sr
  | none => PowRest sl sr

/-- `OperatorNode::Simplify` after child simplification and error absorption
(src lines 965-1324). -/
def OperatorSimplify (o : String) (sl sr : AstNode) : AstNode :=
  if o = "+" then PlusRule sl sr
  else if o = "-" then MinusRule sl sr
  else if o = "*" then MulRule sl sr
  else if o = "/" then DivRule sl sr
  else if o = "^" then PowRule sl sr
  else .Operator o sl sr

/-- The zero-argument folds shared by most trigonometric/hyperbolic dispatch
entries: `f(0) → Number w`, else rebuild. -/
def SimpFoldAtZero (id : String) (w : ℚ) (sA : AstNode) : AstNode :=
  if numValue sA = some 0 then .Number w else .Function id sA

/-- `sqrt` integral test (src lines 793-802): the C++ computes
`result = sqrt(v)` and folds when `(double)(int)result == result`; for the
rationals modelling doubles this fires exactly when `v` is the square of a
natural number (a negative argument yields NaN and never fires). -/
def intSqrtQ (v : ℚ) : Option ℕ :=
  if 0 ≤ v.num ∧ v.den = 1 ∧ Nat.sqrt v.num.toNat * Nat.sqrt v.num.toNat = v.num.toNat
  then some (Nat.sqrt v.num.toNat) else none

open Classical in
/-- The per-function `Simplify(argument)` dispatch entries (src lines
528-826), applied to the already-simplified argument `sA`.  The comparison
of a number with `std::numbers::e` in the `ln` entry (src line 752) is kept
as the idealized comparison with the exact `Real.exp 1`.  As in
`FuncDifferentiate`, the catch-all mirrors the constructor's poisoning of
unknown ids and is unreachable on constructible trees. -/
noncomputable def FuncSimplify (id : String) (sA : AstNode) : AstNode :=
  if id = "sin" then SimpFoldAtZero "sin" 0 sA
  else if id = "cos" then SimpFoldAtZero "cos" 1 sA
  else if id = "tan" then SimpFoldAtZero "tan" 0 sA
  else if id = "cot" then .Function "cot" sA
  else if id = "sec" then SimpFoldAtZero "sec" 1 sA
  else if id = "csc" then .Function "csc" sA
  else if id = "sinh" then SimpFoldAtZero "sinh" 0 sA
  else if id = "cosh" then SimpFoldAtZero "cosh" 1 sA
  else if id = "tanh" then SimpFoldAtZero "tanh" 0 sA
  else if id = "coth" then .Function "coth" sA
  else if id = "sech" then SimpFoldAtZero "sech" 1 sA
  else if id = "csch" then .Function "csch" sA
  else if id = "log" then
    match numValue sA with
    | some v =>
      if v = 1 then .Number 0
      else if v = 10 then .Number 1
      else .Function "log" sA
    | none => .Function "log" sA
  else if id = "ln" then
    match numValue sA with
    | some v =>
      if v = 1 then .Number 0
      else if (v : ℝ) = Real.exp 1 then .Number 1
      else .Function "ln" sA
    | none =>
      match sA with
      | .Constant n => if n = "e" then .Number 1 else .Function "ln" sA
      | _ => .Function "ln" sA
  else if id = "sqrt" then
    match numValue sA with
    | some v =>
      match intSqrtQ v with
      | some k => .Number k
      | none => .Function "sqrt" sA
    | none => .Function "sqrt" sA
  else if id = "abs" then
    match numValue sA with
    | some v => if v < 0 then .Number (-v) else .Number v
    | none => .Function "abs" sA
  else .Error ("Could not find function " ++ id)

/-- `AstNode::Simplify`, all subclasses (src: `ErrorNode` line 192,
`NumberNode` line 212, `VariableNode` line 242, `ConstantNode` line 261,
`OperatorNode` lines 955-1325, `EqualsNode` lines 329-339, `DifferentialNode`
line 380, `FunctionNode` lines 416-421). -/
noncomputable def Simplify : AstNode → AstNode
  | .Error m => .Error m
  | .Number v => .Number v
  | .Variable n => .Variable n
  | .Constant n => .Constant n
  | .Operator o l r =>
    let sl := Simplify l
    let sr := Simplify r
    if sl.isError then sl
    else if sr.isError then sr
    else OperatorSimplify o sl sr
  | .Equals l r =>
    let sl := Simplify l
    let sr := Simplify r
    if sl.isError then sl
    else if sr.isError then sr
    else .Equals sl sr
  | .Differential v w n => .Differential v w n
  | .Function id a =>
    if a.isError then a
    else FuncSimplify id (Simplify a)

/-! ## Numeric evaluation (src/expr.h lines 189-428)

`Evaluate` works in IEEE-754 doubles; the model uses `Option ℝ` with `none`
for NaN.  `+`, `-`, `*` propagate NaN.  Division is modelled with Mathlib's
total division on `ℝ` (so IEEE infinities from division by zero are idealized
away; the claims below never depend on them).  `pow` keeps the two total
special cases of C `pow` that the claims do exercise: `pow(x, 0) = 1` for
every `x` including NaN, and `pow(1, y) = 1` for every `y` including NaN;
otherwise a NaN operand yields NaN, and finite operands use the idealized
real power `Real.rpow`. -/

def Env : Type := String → Option ℝ

def vadd : Option ℝ → Option ℝ → Option ℝ
  | some a, some b => some (a + b)
  | _, _ => none

def vsub : Option ℝ → Option ℝ → Option ℝ
  | some a, some b => some (a - b)
  | _, _ => none

def vmul : Option ℝ → Option ℝ → Option ℝ
  | some a, some b => some (a * b)
  | _, _ => none

noncomputable def vdiv : Option ℝ → Option ℝ → Option ℝ
  | some a, some b => some (a / b)
  | _, _ => none

/-- Model of `std::pow` on `Option ℝ` (see the section comment). -/
noncomputable def vpow (a b : Option ℝ) : Option ℝ :=
  if b = some 0 then some 1
  else if a = some 1 then some 1
  else
    match a, b with
    | some x, some y => some (x ^ y)
    | _, _ => none

/-- The operator dispatch of `OperatorNode::Evaluate` (src lines 282-297);
an unrecognized operator evaluates to NaN. -/
noncomputable def vop (o : String) (a b : Option ℝ) : Option ℝ :=
  if o = "+" then vadd a b
  else if o = "-" then vsub a b
  else if o = "*" then vmul a b
  else if o = "/" then vdiv a b
  else if o = "^" then vpow a b
  else none

/-- `Configuration::GetConstantValue` after `Init` (src lines 1405-1406,
1432-1440): `e` and `pi` idealized to their exact real values, NaN (`none`)
for unknown names. -/
noncomputable def constValue (name : String) : Option ℝ :=
  if name = "e" then some (Real.exp 1)
  else if name = "pi" then some Real.pi
  else none

/-- The `Exec` implementations of the registered dispatch entries
(src lines 60-160) on a non-NaN argument.  Ids missing from the registry
(including `exp`, which `Init` never registers) have no entry: a
`FunctionNode` on such an id would dereference a null `m_Function` in
`Evaluate`; the model returns NaN for them. -/
noncomputable def execReal (id : String) (x : ℝ) : Option ℝ :=
  if id = "sin" then some (Real.sin x)
  else if id = "cos" then some (Real.cos x)
  else if id = "tan" then some (Real.tan x)
  else if id = "cot" then some (Real.cos x / Real.sin x)
  else if id = "sec" then some (1 / Real.cos x)
  else if id = "csc" then some (1 / Real.sin x)
  else if id = "sinh" then some (Real.sinh x)
  else if id = "cosh" then some (Real.cosh x)
  else if id = "tanh" then some (Real.tanh x)
  else if id = "coth" then some (Real.cosh x / Real.sinh x)
  else if id = "sech" then some (1 / Real.cosh x)
  else if id = "csch" then some (1 / Real.sinh x)
  else if id = "log" then some (Real.logb 10 x)
  else if id = "ln" then some (Real.log x)
  else if id = "sqrt" then some (Real.sqrt x)
  else if id = "abs" then some |x|
  else none

/-- `Exec` lifted to `Option ℝ`: every registered function maps NaN to NaN. -/
noncomputable def execF (id : String) : Option ℝ → Option ℝ
  | none => none
  | some x => execReal id x

/-- `AstNode::Evaluate(variableValues)`, all subclasses (src: `ErrorNode`
line 191, `NumberNode` line 211, `VariableNode` lines 234-241, `ConstantNode`
line 260, `OperatorNode` lines 282-298, `EqualsNode` line 328,
`DifferentialNode` line 379, `FunctionNode` lines 411-415). -/
noncomputable def Evaluate : AstNode → Env → Option ℝ
  | .Error _, _ => none
  | .Number v, _ => some (v : ℝ)
  | .Variable n, env => env n
  | .Constant n, _ => constValue n
  | .Operator o l r, env => vop o (Evaluate l env) (Evaluate r env)
  | .Equals _ _, _ => none
  | .Differential _ _ _, _ => none
  | .Function id a, env => execF id (Evaluate a env)

/-! ## The parser (src/expr.h lines 496-1748)

A faithful fueled rendering of the recursive-descent parser.  Each function
takes the remaining token list and returns the parsed node plus the tokens
it did not consume.  Fuel only bounds the recursion; `ParseTokens` passes
more fuel than any input can use, so the "out of fuel" sentinel is
unreachable from it. -/

/-- Model of `std::stod` on the numeric literals the lexer produces
(optional sign, digits, optional fraction).  On other strings `std::stod`
would throw; the model returns the junk value read from their digit prefix
(no claim exercises that case). -/
def digitsVal (cs : List Char) : Nat :=
  cs.foldl (fun a c => 10 * a + (c.toNat - 48)) 0

def stoqPos (cs : List Char) : ℚ :=
  let ds := cs.takeWhile Char.isDigit
  match cs.drop ds.length with
  | '.' :: more =>
    let fs := more.takeWhile Char.isDigit
    (digitsVal ds : ℚ) + (digitsVal fs : ℚ) / (10 ^ fs.length)
  | _ => (digitsVal ds : ℚ)

def stoq (s : String) : ℚ :=
  match s.toList with
  | '-' :: cs => -(stoqPos cs)
  | cs => stoqPos cs

/-- The `FunctionNode` constructor (src lines 1370-1376): an id missing from
the post-`Init` registry poisons the argument with an `Error`. -/
def mkFunctionNode (id : String) (arg : AstNode) : AstNode :=
  if funcIds.contains id then .Function id arg
  else .Function id (.Error ("Could not find function " ++ id))

mutual

/-- `Parser::ParseEquals` (src lines 1568-1592). -/
def ParseEqualsF : Nat → List Token → AstNode × List Token
  | 0, toks => (.Error "out of fuel", toks)
  | Nat.succ f, toks =>
    let p := ParseAddSubF f toks
    if p.1.isError then p else ParseEqualsLoop f p.1 p.2

def ParseEqualsLoop : Nat → AstNode → List Token → AstNode × List Token
  | 0, _, toks => (.Error "out of fuel", toks)
  | Nat.succ f, left, toks =>
    match toks with
    | [] => (left, toks)
    | t :: rest =>
      if t.value = "=" then
        let p := ParseAddSubF f rest
        if p.1.isError then p else ParseEqualsLoop f (.Equals left p.1) p.2
      else (left, toks)

/-- `Parser::ParseAdditionSubtraction` (src lines 1594-1618). -/
def ParseAddSubF : Nat → List Token → AstNode × List Token
  | 0, toks => (.Error "out of fuel", toks)
  | Nat.succ f, toks =>
    let p := ParseMulDivF f toks
    if p.1.isError then p else ParseAddSubLoop f p.1 p.2

def ParseAddSubLoop : Nat → AstNode → List Token → AstNode × List Token
  | 0, _, toks => (.Error "out of fuel", toks)
  | Nat.succ f, left, toks =>
    match toks with
    | [] => (left, toks)
    | t :: rest =>
      if t.value = "+" || t.value = "-" then
        let p := ParseMulDivF f rest
        if p.1.isError then p
        else ParseAddSubLoop f (.Operator t.value left p.1) p.2
      else (left, toks)

/-- `Parser::ParseMultiplicationDivision` (src lines 1620-1644). -/
def ParseMulDivF : Nat → List Token → AstNode × List Token
  | 0, toks => (.Error "out of fuel", toks)
  | Nat.succ f, toks =>
    let p := ParseExpoF f toks
    if p.1.isError then p else ParseMulDivLoop f p.1 p.2

def ParseMulDivLoop : Nat → AstNode → List Token → AstNode × List Token
  | 0, _, toks => (.Error "out of fuel", toks)
  | Nat.succ f, left, toks =>
    match toks with
    | [] => (left, toks)
    | t :: rest =>
      if t.value = "*" || t.value = "/" then
        let p := ParseExpoF f rest
        if p.1.isError then p
        else ParseMulDivLoop f (.Operator t.value left p.1) p.2
      else (left, toks)

/-- `Parser::ParseExponentiation` (src lines 1646-1670): note the loop makes
`^` left-associative, like every other binary operator. -/
def ParseExpoF : Nat → List Token → AstNode × List Token
  | 0, toks => (.Error "out of fuel", toks)
  | Nat.succ f, toks =>
    let p := ParsePrimaryF f toks
    if p.1.isError then p else ParseExpoLoop f p.1 p.2

def ParseExpoLoop : Nat → AstNode → List Token → AstNode × List Token
  | 0, _, toks => (.Error "out of fuel", toks)
  | Nat.succ f, left, toks =>
    match toks with
    | [] => (left, toks)
    | t :: rest =>
      if t.value = "^" then
        let p := ParsePrimaryF f rest
        if p.1.isError then p
        else ParseExpoLoop f (.Operator t.value left p.1) p.2
      else (left, toks)

/-- `Parser::ParsePrimary` (src lines 1672-1748).  The `Function` branch does
not error-check the parsed argument (only the surrounding parentheses), so a
`Function` node can wrap an `Error` argument, as in the source. -/
def ParsePrimaryF : Nat → List Token → AstNode × List Token
  | 0, toks => (.Error "out of fuel", toks)
  | Nat.succ f, toks =>
    match toks with
    | [] => (.Error "Unexpected end of tokens", [])
    | t :: rest =>
      if t.type = TokenType.Number then (.Number (stoq t.value), rest)
      else if t.type = TokenType.Constant then (.Constant t.value, rest)
      else if t.type = TokenType.Variable then (.Variable t.value, rest)
      else if t.type = TokenType.Function then
        match rest with
        | [] => (.Error "expected '(' after function", rest)
        | t2 :: rest2 =>
          if t2.value = "(" then
            let p := ParseEqualsF f rest2
            match p.2 with
            | [] => (.Error "expected ')' after function argument", p.2)
            | t3 :: rest4 =>
              if t3.value = ")" then (mkFunctionNode t.value p.1, rest4)
              else (.Error "expected ')' after function argument", p.2)
          else (.Error "expected '(' after function", rest)
      else if t.type = TokenType.ModulusDelimiter then
        let p := ParseEqualsF f rest
        match p.2 with
        | [] => (.Error "expected '|' to close modulus expression", p.2)
        | t3 :: rest4 =>
          if t3.value = "|" then (mkFunctionNode "abs" p.1, rest4)
          else (.Error "expected '|' to close modulus expression", p.2)
      else if t.type = TokenType.Parenthesis && t.value = "(" then
        let p := ParseEqualsF f rest
        match p.2 with
        | [] => (.Error "expected ')'", p.2)
        | t3 :: rest4 =>
          if t3.value = ")" then (p.1, rest4)
          else (.Error "expected ')'", p.2)
      else
        (.Error ("unexpected token " ++ t.value ++ " (type = "
          ++ toString (typeIdx t.type) ++ ")"), toks)

end

/-- `Parser::ParseExpression` on a whole token list (src lines 1563-1566),
with ample fuel. -/
def ParseTokens (toks : List Token) : AstNode :=
  (ParseEqualsF (10 * toks.length + 10) toks).1

/-! ## The registry (src/expr.h lines 40-160, 434-459, 1383-1445)

`Configuration` holds two process-wide `unordered_map`s, modelled as lookup
functions, plus the `s_Init` flag.  One `FuncEntry` tag per `Function`
subclass of the source (the dispatch behaviour of the entries is the
`FuncDifferentiate`/`FuncSimplify`/`execF` tables above, keyed by id). -/

inductive FuncEntry : Type
  | sineF
  | cosineF
  | tangentF
  | cotangentF
  | secantF
  | cosecantF
  | hSineF
  | hCosineF
  | hTangentF
  | hCotangentF
  | hSecantF
  | hCosecantF
  | base10LogF
  | naturalLogF
  | exponentialF
  | squareRootF
  | modulusF
deriving DecidableEq, Repr

structure ConfigState where
  funcs : String → Option FuncEntry
  consts : String → Option ℝ
  inited : Bool

def emptyState : ConfigState :=
  { funcs := fun _ => none, consts := fun _ => none, inited := false }

/-- `Configuration::AddFunction` (src lines 445-452): registers only when the
id is not yet present (first registration wins). -/
def addFunctionS (s : ConfigState) (id : String) (e : FuncEntry) : ConfigState :=
  if (s.funcs id).isSome then s
  else { s with funcs := fun n => if n = id then some e else s.funcs n }

/-- `Configuration::AddConstant` (src lines 1442-1445): `s_Constants[name] =
value` assigns unconditionally (so a repeated registration overwrites). -/
def addConstantS (s : ConfigState) (name : String) (v : ℝ) : ConfigState :=
  { s with consts := fun n => if n = name then some v else s.consts n }

/-- `Configuration::Init` (src lines 1383-1409).  The registration list is
transcribed verbatim; `ExponentialFunction` ("exp") is never added. -/
noncomputable def initS (s : ConfigState) : ConfigState :=
  if s.inited then s
  else
    let s1 := addFunctionS s "sin" .sineF
    let s2 := addFunctionS s1 "cos" .cosineF
    let s3 := addFunctionS s2 "tan" .tangentF
    let s4 := addFunctionS s3 "cot" .cotangentF
    let s5 := addFunctionS s4 "sec" .secantF
    let s6 := addFunctionS s5 "csc" .cosecantF
    let s7 := addFunctionS s6 "sinh" .hSineF
    let s8 := addFunctionS s7 "cosh" .hCosineF
    let s9 := addFunctionS s8 "tanh" .hTangentF
    let s10 := addFunctionS s9 "coth" .hCotangentF
    let s11 := addFunctionS s10 "sech" .hSecantF
    let s12 := addFunctionS s11 "csch" .hCosecantF
    let s13 := addFunctionS s12 "log" .base10LogF
    let s14 := addFunctionS s13 "ln" .naturalLogF
    let s15 := addFunctionS s14 "sqrt" .squareRootF
    let s16 := addFunctionS s15 "abs" .modulusF
    let s17 := addConstantS s16 "e" (Real.exp 1)
    let s18 := addConstantS s17 "pi" Real.pi
    { s18 with inited := true }

/-- `Configuration::GetFunction` (src lines 1422-1430). -/
def getFunctionS (s : ConfigState) (name : String) : Option FuncEntry :=
  s.funcs name

/-- `Configuration::GetConstantValue` (src lines 1432-1440); `none` is the
NaN returned for unknown names. -/
def getConstantValueS (s : ConfigState) (name : String) : Option ℝ :=
  s.consts name

/-! ## Structural predicates used by the claims -/

/-- The tree contains an `Error` node somewhere. -/
def containsError : AstNode → Bool
  | .Error _ => true
  | .Operator _ l r => containsError l || containsError r
  | .Equals l r => containsError l || containsError r
  | .Function _ a => containsError a
  | _ => false

/-- An `Error` subtree reachable from the root through `Operator` and
`Equals` nodes only, or sitting as the immediate argument of a `Function`
node reached that way.  These are exactly the positions whose errors the
symbolic operations absorb: the per-function dispatch entries wrap deeper
errors in fresh `Operator`/`Function` shells instead of returning them. -/
def errAbsorbPath : AstNode → Bool
  | .Error _ => true
  | .Operator _ l r => errAbsorbPath l || errAbsorbPath r
  | .Equals l r => errAbsorbPath l || errAbsorbPath r
  | .Function _ a => a.isError
  | _ => false

/-- The names of the `Variable` nodes of a tree. -/
def freeVars : AstNode → List String
  | .Variable n => [n]
  | .Operator _ l r => freeVars l ++ freeVars r
  | .Equals l r => freeVars l ++ freeVars r
  | .Function _ a => freeVars a
  | _ => []

/-- No `^` subterm has a left child evaluating to `1` or a right child
evaluating to `0` (the two operand values at which C `pow` ignores a NaN in
the other operand). -/
def powSafe : AstNode → Env → Prop
  | .Operator o l r, env =>
    (o = "^" → Evaluate l env ≠ some 1 ∧ Evaluate r env ≠ some 0)
      ∧ powSafe l env ∧ powSafe r env
  | .Equals l r, env => powSafe l env ∧ powSafe r env
  | .Function _ a, env => powSafe a env
  | _, _ => True

/-- Every subterm evaluates to a number (no NaN anywhere). -/
def evalDefinedDeep : AstNode → Env → Prop
  | .Operator o l r, env =>
    Evaluate (.Operator o l r) env ≠ none
      ∧ evalDefinedDeep l env ∧ evalDefinedDeep r env
  | .Equals l r, env =>
    Evaluate (.Equals l r) env ≠ none
      ∧ evalDefinedDeep l env ∧ evalDefinedDeep r env
  | .Function id a, env =>
    Evaluate (.Function id a) env ≠ none ∧ evalDefinedDeep a env
  | t, env => Evaluate t env ≠ none

/-- No `^` subterm has both children evaluating to `0` (the one input on
which the simplifier's `0^R → 0` rule changes the value: `pow(0,0) = 1`). -/
def noZeroPowZero : AstNode → Env → Prop
  | .Operator o l r, env =>
    (o = "^" → ¬(Evaluate l env = some 0 ∧ Evaluate r env = some 0))
      ∧ noZeroPowZero l env ∧ noZeroPowZero r env
  | .Equals l r, env => noZeroPowZero l env ∧ noZeroPowZero r env
  | .Function _ a, env => noZeroPowZero a env
  | _, _ => True

/-! ## Concrete inputs used by the claims -/

/-- A tree with an `Error` nested two levels below a `Function` node: the
`sin` dispatch entry wraps the absorbed error of the argument's derivative
in a fresh `*` node instead of returning it. -/
def c1TreeA : AstNode :=
  .Function "sin" (.Operator "+" (.Error "boom") (.Variable "x"))

/-- A tree whose Error sits under `^` with exponent `Number 0`:
`pow(NaN, 0) = 1`. -/
def c1TreeB : AstNode := .Operator "^" (.Error "boom") (.Number 0)

def c1TreeW : AstNode := .Operator "+" (.Error "m") (.Variable "x")

def c2Tree : AstNode := .Operator "^" (.Number 0) (.Variable "x")

noncomputable def c2Env : Env := fun n => if n = "x" then some 0 else none

def c2TreeW : AstNode := .Operator "+" (.Number 1) (.Variable "y")

noncomputable def c2EnvW : Env := fun n => if n = "y" then some 2 else none

def c6Tree : AstNode := .Operator "^" (.Number 0) (.Number 0)

/-! ## Small evaluation lemmas -/

theorem numValue_Number (v : ℚ) : numValue (.Number v) = some v := rfl

theorem numValue_eq_some {t : AstNode} {v : ℚ} :
    numValue t = some v ↔ t = .Number v := by
  cases t <;> simp [numValue]

theorem vadd_none_left (b : Option ℝ) : vadd none b = none := by cases b <;> rfl

theorem vadd_none_right (a : Option ℝ) : vadd a none = none := by cases a <;> rfl

theorem vsub_none_left (b : Option ℝ) : vsub none b = none := by cases b <;> rfl

theorem vsub_none_right (a : Option ℝ) : vsub a none = none := by cases a <;> rfl

theorem vmul_none_left (b : Option ℝ) : vmul none b = none := by cases b <;> rfl

theorem vmul_none_right (a : Option ℝ) : vmul a none = none := by cases a <;> rfl

theorem vdiv_none_left (b : Option ℝ) : vdiv none b = none := by cases b <;> rfl

theorem vdiv_none_right (a : Option ℝ) : vdiv a none = none := by cases a <;> rfl

theorem vpow_none_left {b : Option ℝ} (hb : b ≠ some 0) : vpow none b = none := by
  unfold vpow
  rw [if_neg hb, if_neg (by simp)]

theorem vpow_none_right {a : Option ℝ} (ha : a ≠ some 1) : vpow a none = none := by
  unfold vpow
  rw [if_neg (by simp), if_neg ha]
  cases a <;> rfl


theorem execF_none (id : String) : execF id none = none := rfl

/-- An unrecognized operator string evaluates to NaN. -/
theorem vop_unknown {o : String} (h1 : o ≠ "+") (h2 : o ≠ "-") (h3 : o ≠ "*")
    (h4 : o ≠ "/") (h5 : o ≠ "^") (a b : Option ℝ) : vop o a b = none := by
  unfold vop
  rw [if_neg h1, if_neg h2, if_neg h3, if_neg h4, if_neg h5]

/-! ## Error absorption (claim C1) -/

theorem errAbsorbPath_differentiate :
    ∀ (t : AstNode) (rt : String), errAbsorbPath t = true →
      (Differentiate t rt).isError = true := by
  intro t
  induction t with
  | Error m => intro rt _; simp [Differentiate, AstNode.isError]
  | Number v => intro rt h; simp [errAbsorbPath] at h
  | Variable n => intro rt h; simp [errAbsorbPath] at h
  | Constant n => intro rt h; simp [errAbsorbPath] at h
  | Operator o l r ihl ihr =>
    intro rt h
    simp only [errAbsorbPath, Bool.or_eq_true] at h
    rcases h with h | h
    · have hl := ihl rt h
      simp only [Differentiate]
      simp [hl]
    · have hr := ihr rt h
      simp only [Differentiate]
      by_cases hc : (Differentiate l rt).isError
      · simp [hc]
      · simp [hc, hr]
  | Equals l r ihl ihr =>
    intro rt h
    simp only [errAbsorbPath, Bool.or_eq_true] at h
    rcases h with h | h
    · have hl := ihl rt h
      simp only [Differentiate]
      simp [hl]
    · have hr := ihr rt h
      simp only [Differentiate]
      by_cases hc : (Differentiate l rt).isError
      · simp [hc]
      · simp [hc, hr]
  | Differential v w n => intro rt h; simp [errAbsorbPath] at h
  | Function id a iha =>
    intro rt h
    simp only [errAbsorbPath] at h
    simp [Differentiate, h]

theorem errAbsorbPath_simplify :
    ∀ t : AstNode, errAbsorbPath t = true → (Simplify t).isError = true := by
  intro t
  induction t with
  | Error m => intro _; simp [Simplify, AstNode.isError]
  | Number v => intro h; simp [errAbsorbPath] at h
  | Variable n => intro h; simp [errAbsorbPath] at h
  | Constant n => intro h; simp [errAbsorbPath] at h
  | Operator o l r ihl ihr =>
    intro h
    simp only [errAbsorbPath, Bool.or_eq_true] at h
    rcases h with h | h
    · have hl := ihl h
      simp only [Simplify]
      simp [hl]
    · have hr := ihr h
      simp only [Simplify]
      by_cases hc : (Simplify l).isError
      · simp [hc]
      · simp [hc, hr]
  | Equals l r ihl ihr =>
    intro h
    simp only [errAbsorbPath, Bool.or_eq_true] at h
    rcases h with h | h
    · have hl := ihl h
      simp only [Simplify]
      simp [hl]
    · have hr := ihr h
      simp only [Simplify]
      by_cases hc : (Simplify l).isError
      · simp [hc]
      · simp [hc, hr]
  | Differential v w n => intro h; simp [errAbsorbPath] at h
  | Function id a iha =>
    intro h
    simp only [errAbsorbPath] at h
    simp [Simplify, h]

theorem containsError_evaluate :
    ∀ (t : AstNode) (env : Env), containsError t = true → powSafe t env →
      Evaluate t env = none := by
  intro t
  induction t with
  | Error m => intro env _ _; rfl
  | Number v => intro env h _; simp [containsError] at h
  | Variable n => intro env h _; simp [containsError] at h
  | Constant n => intro env h _; simp [containsError] at h
  | Operator o l r ihl ihr =>
    intro env h hp
    simp only [containsError, Bool.or_eq_true] at h
    obtain ⟨hpow, hpl, hpr⟩ := hp
    show vop o (Evaluate l env) (Evaluate r env) = none
    by_cases h1 : o = "+" <;> by_cases h2 : o = "-" <;> by_cases h3 : o = "*" <;>
      by_cases h4 : o = "/" <;> by_cases h5 : o = "^" <;>
      first
        | (subst h1
           rcases h with h | h
           · rw [ihl env h hpl]; simp [vop, vadd_none_left]
           · rw [ihr env h hpr]; simp [vop, vadd_none_right])
        | (subst h2
           rcases h with h | h
           · rw [ihl env h hpl]; simp [vop, vsub_none_left]
           · rw [ihr env h hpr]; simp [vop, vsub_none_right])
        | (subst h3
           rcases h with h | h
           · rw [ihl env h hpl]; simp [vop, vmul_none_left]
           · rw [ihr env h hpr]; simp [vop, vmul_none_right])
        | (subst h4
           rcases h with h | h
           · rw [ihl env h hpl]; simp [vop, vdiv_none_left]
           · rw [ihr env h hpr]; simp [vop, vdiv_none_right])
        | (subst h5
           obtain ⟨hne1, hne0⟩ := hpow rfl
           rcases h with h | h
           · rw [ihl env h hpl]; simp only [vop]
             norm_num
             exact vpow_none_left hne0
           · rw [ihr env h hpr]; simp only [vop]
             norm_num
             exact vpow_none_right hne1)
        | exact vop_unknown h1 h2 h3 h4 h5 _ _
  | Equals l r ihl ihr => intro env _ _; rfl
  | Differential v w n => intro env _ _; rfl
  | Function id a iha =>
    intro env h hp
    simp only [containsError] at h
    show execF id (Evaluate a env) = none
    rw [iha env h hp]
    rfl

/-! ## Value preservation of the simplifier (claim C2): rule lemmas -/

theorem vop_add (a b : Option ℝ) : vop "+" a b = vadd a b := rfl

theorem vop_sub (a b : Option ℝ) : vop "-" a b = vsub a b := rfl

theorem vop_mul (a b : Option ℝ) : vop "*" a b = vmul a b := rfl

theorem vop_div (a b : Option ℝ) : vop "/" a b = vdiv a b := rfl

theorem vop_pow (a b : Option ℝ) : vop "^" a b = vpow a b := rfl

theorem vadd_some (a b : ℝ) : vadd (some a) (some b) = some (a + b) := rfl

theorem vsub_some (a b : ℝ) : vsub (some a) (some b) = some (a - b) := rfl

theorem vmul_some (a b : ℝ) : vmul (some a) (some b) = some (a * b) := rfl

theorem vdiv_some (a b : ℝ) : vdiv (some a) (some b) = some (a / b) := rfl

theorem vadd_eq_some {x y : Option ℝ} {c : ℝ} :
    vadd x y = some c ↔ ∃ a b, x = some a ∧ y = some b ∧ a + b = c := by
  cases x <;> cases y <;> simp [vadd]

theorem vsub_eq_some {x y : Option ℝ} {c : ℝ} :
    vsub x y = some c ↔ ∃ a b, x = some a ∧ y = some b ∧ a - b = c := by
  cases x <;> cases y <;> simp [vsub]

/-- If an `Error` is the simplified form, the original evaluates to NaN. -/
theorem isError_evaluate {t : AstNode} (h : t.isError = true) (env : Env) :
    Evaluate t env = none := by
  cases t <;> simp [AstNode.isError] at h ⊢ <;> rfl

theorem evalDefinedDeep_ne_none {t : AstNode} {env : Env}
    (h : evalDefinedDeep t env) : Evaluate t env ≠ none := by
  cases t <;> simp only [evalDefinedDeep] at h <;> tauto

/-- `vpow` on a `1` exponent. -/
theorem vpow_some_one (a : ℝ) : vpow (some a) (some 1) = some a := by
  by_cases h : a = 1
  · subst h
    simp [vpow]
  · unfold vpow
    rw [if_neg (by simp), if_neg (by simpa using h)]
    simp [Real.rpow_one]

/-- `vpow` on a `0` exponent (the C `pow(x, 0) = 1` total case). -/
theorem vpow_zero_exponent (a : Option ℝ) : vpow a (some 0) = some 1 := by
  simp [vpow]

/-- `vpow` on a `1` base (the C `pow(1, y) = 1` total case). -/
theorem vpow_one_base (b : Option ℝ) : vpow (some 1) b = some 1 := by
  unfold vpow
  by_cases h : b = some 0
  · rw [if_pos h]
  · rw [if_neg h, if_pos rfl]

/-- `vpow` on a `0` base and nonzero finite exponent. -/
theorem vpow_zero_base {b : ℝ} (hb : b ≠ 0) : vpow (some 0) (some b) = some 0 := by
  unfold vpow
  rw [if_neg (by simpa using hb), if_neg (by norm_num)]
  simp [Real.zero_rpow hb]

/-- Soundness of the `+` rules. -/
theorem PlusRule_sound (sl sr : AstNode) (env : Env) (a b : ℝ)
    (ha : Evaluate sl env = some a) (hb : Evaluate sr env = some b) :
    Evaluate (PlusRule sl sr) env = some (a + b) := by
  cases hnl : numValue sl with
  | some lv =>
    simp only [PlusRule, hnl]
    obtain rfl := numValue_eq_some.mp hnl
    simp only [Evaluate, Option.some.injEq] at ha
    by_cases h0 : lv = 0
    · subst h0
      rw [if_pos rfl, hb]
      norm_num [← ha]
    · rw [if_neg h0]
      cases hnr : numValue sr with
      | some rv =>
        dsimp only
        obtain rfl := numValue_eq_some.mp hnr
        simp only [Evaluate, Option.some.injEq] at hb
        simp only [Evaluate, Option.some.injEq]
        push_cast
        rw [ha, hb]
      | none =>
        dsimp only
        simp only [Evaluate, vop_add, ha, hb, vadd_some]
  | none =>
    simp only [PlusRule, hnl]
    cases hnr : numValue sr with
    | some rv =>
      dsimp only
      obtain rfl := numValue_eq_some.mp hnr
      simp only [Evaluate, Option.some.injEq] at hb
      by_cases h0 : rv = 0
      · subst h0
        rw [if_pos rfl, ha]
        norm_num [← hb]
      · rw [if_neg h0]
        simp only [Evaluate, vop_add, ha, hb, vadd_some]
    | none =>
      dsimp only
      simp only [Evaluate, vop_add, ha, hb, vadd_some]

/-- Soundness of the `-` rules. -/
theorem MinusRule_sound (sl sr : AstNode) (env : Env) (a b : ℝ)
    (ha : Evaluate sl env = some a) (hb : Evaluate sr env = some b) :
    Evaluate (MinusRule sl sr) env = some (a - b) := by
  cases hnl : numValue sl with
  | some lv =>
    simp only [MinusRule, hnl]
    obtain rfl := numValue_eq_some.mp hnl
    simp only [Evaluate, Option.some.injEq] at ha
    by_cases h0 : lv = 0
    · subst h0
      rw [if_pos rfl]
      simp only [Evaluate, vop_mul, hb, vmul_some, Option.some.injEq]
      push_cast
      rw [← ha]
      ring
    · rw [if_neg h0]
      cases hnr : numValue sr with
      | some rv =>
        dsimp only
        obtain rfl := numValue_eq_some.mp hnr
        simp only [Evaluate, Option.some.injEq] at hb
        simp only [Evaluate, Option.some.injEq]
        push_cast
        rw [ha, hb]
      | none =>
        dsimp only
        simp only [Evaluate, vop_sub, ha, hb, vsub_some]
  | none =>
    simp only [MinusRule, hnl]
    cases hnr : numValue sr with
    | some rv =>
      dsimp only
      obtain rfl := numValue_eq_some.mp hnr
      simp only [Evaluate, Option.some.injEq] at hb
      by_cases h0 : rv = 0
      · subst h0
        rw [if_pos rfl, ha]
        norm_num [← hb]
      · rw [if_neg h0]
        simp only [Evaluate, vop_sub, ha, hb, vsub_some]
    | none =>
      dsimp only
      simp only [Evaluate, vop_sub, ha, hb, vsub_some]

/-- Soundness of the `/` rules (with Mathlib's total division, `0/0 = 0`,
under which the `0/R → 0` rule is exact). -/
theorem DivRule_sound (sl sr : AstNode) (env : Env) (a b : ℝ)
    (ha : Evaluate sl env = some a) (hb : Evaluate sr env = some b) :
    Evaluate (DivRule sl sr) env = some (a / b) := by
  unfold DivRule
  by_cases h1 : numValue sr = some 1
  · obtain rfl := numValue_eq_some.mp h1
    simp only [Evaluate, Option.some.injEq] at hb
    rw [if_pos h1, ha, ← hb]
    norm_num
  · rw [if_neg h1]
    by_cases h0 : numValue sl = some 0
    · obtain rfl := numValue_eq_some.mp h0
      simp only [Evaluate, Option.some.injEq] at ha
      rw [if_pos h0]
      simp only [Evaluate, Option.some.injEq]
      rw [← ha]
      norm_num
    · rw [if_neg h0]
      simp only [Evaluate, vop_div, ha, hb, vdiv_some]

theorem vpow_some_two (a : ℝ) : vpow (some a) (some ((2 : ℚ) : ℝ)) = some (a * a) := by
  by_cases h : a = 1
  · subst h
    rw [vpow_one_base]
    norm_num
  · unfold vpow
    rw [if_neg (by norm_num), if_neg (by simpa using h)]
    dsimp only
    have h2 : ((2 : ℚ) : ℝ) = ((2 : ℕ) : ℝ) := by norm_num
    rw [h2, Real.rpow_natCast]
    norm_num [sq]

/-- Soundness of the four-term distributive expansion. -/
theorem ExpandBoth_sound (lo : String) (ll lr : AstNode) (ro : String)
    (rl rr : AstNode) (env : Env) (a b : ℝ)
    (hlo : lo = "+" ∨ lo = "-") (hro : ro = "+" ∨ ro = "-")
    (ha : Evaluate (.Operator lo ll lr) env = some a)
    (hb : Evaluate (.Operator ro rl rr) env = some b) :
    Evaluate (ExpandBoth lo ll lr ro rl rr) env = some (a * b) := by
  rcases hlo with rfl | rfl <;> rcases hro with rfl | rfl
  · simp only [Evaluate, vop_add] at ha hb
    rcases vadd_eq_some.mp ha with ⟨va, vb, hva, hvb, hs1⟩
    rcases vadd_eq_some.mp hb with ⟨vc, vd, hvc, hvd, hs2⟩
    simp only [ExpandBoth, reduceIte, Evaluate, vop_add, vop_mul,
      hva, hvb, hvc, hvd, vmul_some, vadd_some, Option.some.injEq]
    rw [← hs1, ← hs2]
    ring
  · simp only [Evaluate, vop_add, vop_sub] at ha hb
    rcases vadd_eq_some.mp ha with ⟨va, vb, hva, hvb, hs1⟩
    rcases vsub_eq_some.mp hb with ⟨vc, vd, hvc, hvd, hs2⟩
    simp only [ExpandBoth, reduceIte, Evaluate, vop_add, vop_sub, vop_mul,
      hva, hvb, hvc, hvd, vmul_some, vadd_some, vsub_some, Option.some.injEq]
    rw [← hs1, ← hs2]
    ring
  · simp only [Evaluate, vop_add, vop_sub] at ha hb
    rcases vsub_eq_some.mp ha with ⟨va, vb, hva, hvb, hs1⟩
    rcases vadd_eq_some.mp hb with ⟨vc, vd, hvc, hvd, hs2⟩
    simp only [ExpandBoth, reduceIte, Evaluate, vop_add, vop_sub, vop_mul,
      hva, hvb, hvc, hvd, vmul_some, vadd_some, vsub_some, Option.some.injEq]
    rw [← hs1, ← hs2]
    ring
  · simp only [Evaluate, vop_sub] at ha hb
    rcases vsub_eq_some.mp ha with ⟨va, vb, hva, hvb, hs1⟩
    rcases vsub_eq_some.mp hb with ⟨vc, vd, hvc, hvd, hs2⟩
    simp only [ExpandBoth, reduceIte, Evaluate, vop_add, vop_sub, vop_mul,
      hva, hvb, hvc, hvd, vmul_some, vadd_some, vsub_some, Option.some.injEq]
    rw [← hs1, ← hs2]
    ring

/-- Soundness of the left-sum distribution step. -/
theorem MulRule5_sound (sl sr : AstNode) (env : Env) (a b : ℝ)
    (ha : Evaluate sl env = some a) (hb : Evaluate sr env = some b) :
    Evaluate (MulRule5 sl sr) env = some (a * b) := by
  have hrecon : Evaluate (.Operator "*" sl sr) env = some (a * b) := by
    simp only [Evaluate, vop_mul, ha, hb, vmul_some]
  cases sl with
  | Operator lo ll lr =>
    simp only [MulRule5]
    by_cases hlo : lo = "+" ∨ lo = "-"
    · rw [if_pos hlo]
      have hdistrib : ∀ vb2 : ℝ, Evaluate sr env = some vb2 →
          Evaluate (.Operator lo (.Operator "*" sr ll) (.Operator "*" sr lr)) env
            = some (a * vb2) := by
        intro vb2 hb2
        rcases hlo with rfl | rfl
        · simp only [Evaluate, vop_add] at ha
          rcases vadd_eq_some.mp ha with ⟨va, vb, hva, hvb, hs⟩
          simp only [Evaluate, vop_add, vop_mul, hva, hvb, hb2, vmul_some,
            vadd_some, Option.some.injEq]
          rw [← hs]
          ring
        · simp only [Evaluate, vop_sub] at ha
          rcases vsub_eq_some.mp ha with ⟨va, vb, hva, hvb, hs⟩
          simp only [Evaluate, vop_sub, vop_mul, hva, hvb, hb2, vmul_some,
            vsub_some, Option.some.injEq]
          rw [← hs]
          ring
      cases sr with
      | Number v => exact hdistrib b hb
      | Constant n => exact hdistrib b hb
      | Function fid farg => exact hdistrib b hb
      | Error m => exact hrecon
      | Variable n => exact hrecon
      | Operator o2 l2 r2 => exact hrecon
      | Equals l2 r2 => exact hrecon
      | Differential v w n => exact hrecon
    · rw [if_neg hlo]
      exact hrecon
  | Error m => exact hrecon
  | Number v => exact hrecon
  | Variable n => exact hrecon
  | Constant n => exact hrecon
  | Equals l r => exact hrecon
  | Differential v w n => exact hrecon
  | Function id arg => exact hrecon

/-- Soundness of the right-sum distribution step. -/
theorem MulRule4_sound (sl sr : AstNode) (env : Env) (a b : ℝ)
    (ha : Evaluate sl env = some a) (hb : Evaluate sr env = some b) :
    Evaluate (MulRule4 sl sr) env = some (a * b) := by
  cases sr with
  | Operator ro rl rr =>
    simp only [MulRule4]
    by_cases hro : ro = "+" ∨ ro = "-"
    · rw [if_pos hro]
      have hdL : ∀ (k : AstNode) (vk : ℝ), Evaluate k env = some vk →
          Evaluate (.Operator ro (.Operator "*" k rl) (.Operator "*" k rr)) env
            = some (vk * b) := by
        intro k vk hk
        rcases hro with rfl | rfl
        · simp only [Evaluate, vop_add] at hb
          rcases vadd_eq_some.mp hb with ⟨vc, vd, hvc, hvd, hs⟩
          simp only [Evaluate, vop_add, vop_mul, hvc, hvd, hk, vmul_some,
            vadd_some, Option.some.injEq]
          rw [← hs]
          ring
        · simp only [Evaluate, vop_sub] at hb
          rcases vsub_eq_some.mp hb with ⟨vc, vd, hvc, hvd, hs⟩
          simp only [Evaluate, vop_sub, vop_mul, hvc, hvd, hk, vmul_some,
            vsub_some, Option.some.injEq]
          rw [← hs]
          ring
      cases sl with
      | Operator lo ll lr =>
        dsimp only
        by_cases hlo : lo = "+" ∨ lo = "-"
        · rw [if_pos hlo]
          exact ExpandBoth_sound lo ll lr ro rl rr env a b hlo hro ha hb
        · rw [if_neg hlo]
          exact MulRule5_sound _ _ _ _ _ ha hb
      | Number v => exact hdL _ a ha
      | Constant n => exact hdL _ a ha
      | Function fid farg => exact hdL _ a ha
      | Error m => exact MulRule5_sound _ _ _ _ _ ha hb
      | Variable n => exact MulRule5_sound _ _ _ _ _ ha hb
      | Equals l2 r2 => exact MulRule5_sound _ _ _ _ _ ha hb
      | Differential v w n => exact MulRule5_sound _ _ _ _ _ ha hb
    · rw [if_neg hro]
      exact MulRule5_sound _ _ _ _ _ ha hb
  | Error m => exact MulRule5_sound _ _ _ _ _ ha hb
  | Number v => exact MulRule5_sound _ _ _ _ _ ha hb
  | Variable n => exact MulRule5_sound _ _ _ _ _ ha hb
  | Constant n => exact MulRule5_sound _ _ _ _ _ ha hb
  | Equals l2 r2 => exact MulRule5_sound _ _ _ _ _ ha hb
  | Differential v w n => exact MulRule5_sound _ _ _ _ _ ha hb
  | Function fid farg => exact MulRule5_sound _ _ _ _ _ ha hb

/-- Soundness of the squaring folds. -/
theorem MulRule3_sound (sl sr : AstNode) (env : Env) (a b : ℝ)
    (ha : Evaluate sl env = some a) (hb : Evaluate sr env = some b) :
    Evaluate (MulRule3 sl sr) env = some (a * b) := by
  cases sl <;> cases sr <;>
    try (simp only [MulRule3]; exact MulRule4_sound _ _ _ _ _ ha hb)
  case Variable.Variable n m =>
    simp only [MulRule3]
    by_cases h : n = m
    · subst h
      rw [if_pos rfl]
      simp only [Evaluate] at ha hb
      rw [ha] at hb
      have hab := Option.some.inj hb
      simp only [Evaluate, vop_pow, ha]
      rw [vpow_some_two, hab]
    · rw [if_neg h]
      exact MulRule4_sound _ _ _ _ _ ha hb
  case Constant.Constant n m =>
    simp only [MulRule3]
    by_cases h : n = m
    · subst h
      rw [if_pos rfl]
      simp only [Evaluate] at ha hb
      rw [ha] at hb
      have hab := Option.some.inj hb
      simp only [Evaluate, vop_pow, ha]
      rw [vpow_some_two, hab]
    · rw [if_neg h]
      exact MulRule4_sound _ _ _ _ _ ha hb

/-- Soundness of the right `Number` identities of `*`. -/
theorem MulRule2_sound (sl sr : AstNode) (env : Env) (a b : ℝ)
    (ha : Evaluate sl env = some a) (hb : Evaluate sr env = some b) :
    Evaluate (MulRule2 sl sr) env = some (a * b) := by
  cases hnr : numValue sr with
  | some rv =>
    simp only [MulRule2, hnr]
    obtain rfl := numValue_eq_some.mp hnr
    simp only [Evaluate, Option.some.injEq] at hb
    by_cases h1 : rv = 1
    · subst h1
      rw [if_pos rfl, ha]
      norm_num [← hb]
    · rw [if_neg h1]
      by_cases h0 : rv = 0
      · subst h0
        rw [if_pos rfl]
        simp only [Evaluate, Option.some.injEq]
        rw [← hb]
        norm_num
      · rw [if_neg h0]
        exact MulRule3_sound _ _ _ _ _ ha (by simp only [Evaluate, hb])
  | none =>
    simp only [MulRule2, hnr]
    exact MulRule3_sound _ _ _ _ _ ha hb

/-- Soundness of the `*` rules. -/
theorem MulRule_sound (sl sr : AstNode) (env : Env) (a b : ℝ)
    (ha : Evaluate sl env = some a) (hb : Evaluate sr env = some b) :
    Evaluate (MulRule sl sr) env = some (a * b) := by
  cases hnl : numValue sl with
  | some lv =>
    simp only [MulRule, hnl]
    obtain rfl := numValue_eq_some.mp hnl
    simp only [Evaluate, Option.some.injEq] at ha
    by_cases h1 : lv = 1
    · subst h1
      rw [if_pos rfl, hb]
      norm_num [← ha]
    · rw [if_neg h1]
      by_cases h0 : lv = 0
      · subst h0
        rw [if_pos rfl]
        simp only [Evaluate, Option.some.injEq]
        rw [← ha]
        norm_num
      · rw [if_neg h0]
        exact MulRule2_sound _ _ _ _ _ (by simp only [Evaluate, ha]) hb
  | none =>
    simp only [MulRule, hnl]
    exact MulRule2_sound _ _ _ _ _ ha hb

/-- Soundness of the right-`Number` checks of `^`. -/
theorem PowRest_sound (sl sr : AstNode) (env : Env) (a b : ℝ)
    (ha : Evaluate sl env = some a) (hb : Evaluate sr env = some b) :
    Evaluate (PowRest sl sr) env = vpow (some a) (some b) := by
  cases hnr : numValue sr with
  | some rv =>
    simp only [PowRest, hnr]
    obtain rfl := numValue_eq_some.mp hnr
    simp only [Evaluate, Option.some.injEq] at hb
    by_cases h1 : rv = 1
    · subst h1
      rw [if_pos rfl]
      have hb1 : b = 1 := by rw [← hb]; norm_num
      rw [hb1, vpow_some_one, ha]
    · rw [if_neg h1]
      by_cases h0 : rv = 0
      · subst h0
        rw [if_pos rfl]
        have hb0 : b = 0 := by rw [← hb]; norm_num
        rw [hb0, vpow_zero_exponent]
        simp [Evaluate]
      · rw [if_neg h0]
        simp only [Evaluate, vop_pow, ha, hb]
  | none =>
    simp only [PowRest, hnr]
    simp only [Evaluate, vop_pow, ha, hb]

/-- Soundness of the `^` rules, away from the one value-changing input:
`hnz` excludes a pair of children both evaluating to `0` (there the code
rewrites `0^0`, which C `pow` evaluates to `1`, to `Number 0`). -/
theorem PowRule_sound (sl sr : AstNode) (env : Env) (a b : ℝ)
    (ha : Evaluate sl env = some a) (hb : Evaluate sr env = some b)
    (hnz : ¬(a = 0 ∧ b = 0)) :
    Evaluate (PowRule sl sr) env = vpow (some a) (some b) := by
  cases hnl : numValue sl with
  | some lv =>
    simp only [PowRule, hnl]
    obtain rfl := numValue_eq_some.mp hnl
    simp only [Evaluate, Option.some.injEq] at ha
    by_cases h0 : lv = 0
    · subst h0
      rw [if_pos rfl]
      have ha0 : a = 0 := by rw [← ha]; norm_num
      have hb0 : b ≠ 0 := fun hb0 => hnz ⟨ha0, hb0⟩
      cases hnr : numValue sr with
      | none =>
        dsimp only
        rw [ha0, vpow_zero_base hb0]
        simp [Evaluate]
      | some rv =>
        dsimp only
        obtain rfl := numValue_eq_some.mp hnr
        simp only [Evaluate, Option.some.injEq] at hb
        have hrv : rv ≠ 0 := by
          intro h
          apply hb0
          rw [← hb, h]
          norm_num
        rw [if_pos hrv]
        rw [ha0, vpow_zero_base hb0]
        simp [Evaluate]
    · rw [if_neg h0]
      by_cases h1 : lv = 1
      · subst h1
        rw [if_pos rfl]
        have ha1 : a = 1 := by rw [← ha]; norm_num
        rw [ha1, vpow_one_base]
        simp [Evaluate]
      · rw [if_neg h1]
        exact PowRest_sound _ _ _ _ _ (by rw [Evaluate, ha]) hb
  | none =>
    simp only [PowRule, hnl]
    exact PowRest_sound _ _ _ _ _ ha hb

theorem intSqrtQ_spec {v : ℚ} {k : ℕ} (h : intSqrtQ v = some k) :
    (v : ℝ) = (k : ℝ) ^ 2 := by
  unfold intSqrtQ at h
  by_cases hc : 0 ≤ v.num ∧ v.den = 1 ∧ Nat.sqrt v.num.toNat * Nat.sqrt v.num.toNat = v.num.toNat
  · rw [if_pos hc] at h
    obtain ⟨h1, h2, h3⟩ := hc
    obtain rfl := Option.some.inj h
    have hv : v = ((v.num.toNat : ℕ) : ℚ) := by
      have hden := v.num_div_den
      rw [h2] at hden
      push_cast at hden
      rw [div_one] at hden
      rw [← hden]
      congr 1
      exact_mod_cast (Int.toNat_of_nonneg h1).symm
    calc (v : ℝ) = ((v.num.toNat : ℕ) : ℝ) := by exact_mod_cast hv
      _ = ((Nat.sqrt v.num.toNat * Nat.sqrt v.num.toNat : ℕ) : ℝ) := by rw [h3]
      _ = (Nat.sqrt v.num.toNat : ℝ) ^ 2 := by push_cast; ring
  · rw [if_neg hc] at h
    exact absurd h (by simp)

theorem execReal_unknown {id : String} (h1 : id ≠ "sin") (h2 : id ≠ "cos")
    (h3 : id ≠ "tan") (h4 : id ≠ "cot") (h5 : id ≠ "sec") (h6 : id ≠ "csc")
    (h7 : id ≠ "sinh") (h8 : id ≠ "cosh") (h9 : id ≠ "tanh") (h10 : id ≠ "coth")
    (h11 : id ≠ "sech") (h12 : id ≠ "csch") (h13 : id ≠ "log") (h14 : id ≠ "ln")
    (h15 : id ≠ "sqrt") (h16 : id ≠ "abs") (x : ℝ) : execReal id x = none := by
  unfold execReal
  rw [if_neg h1, if_neg h2, if_neg h3, if_neg h4, if_neg h5, if_neg h6,
    if_neg h7, if_neg h8, if_neg h9, if_neg h10, if_neg h11, if_neg h12,
    if_neg h13, if_neg h14, if_neg h15, if_neg h16]

set_option maxHeartbeats 1000000 in
/-- Soundness of the per-function simplification table: on an argument that
evaluates to a number, for a function id whose `Exec` is defined there, the
simplified node evaluates to `Exec` of the argument value. -/
theorem FuncSimplify_sound (id : String) (sA : AstNode) (env : Env) (a : ℝ)
    (ha : Evaluate sA env = some a) (hne : execF id (some a) ≠ none) :
    Evaluate (FuncSimplify id sA) env = execF id (some a) := by
  have hfold0 : ∀ (fid : String) (w : ℚ), execReal fid 0 = some (w : ℝ) →
      Evaluate (SimpFoldAtZero fid w sA) env = execF fid (some a) := by
    intro fid w hw
    unfold SimpFoldAtZero
    by_cases h0 : numValue sA = some 0
    · obtain rfl := numValue_eq_some.mp h0
      simp only [Evaluate, Option.some.injEq] at ha
      rw [if_pos h0]
      have ha0 : a = 0 := by rw [← ha]; norm_num
      show Evaluate (.Number w) env = execF fid (some a)
      rw [ha0]
      show some ((w : ℚ) : ℝ) = execF fid (some 0)
      rw [show execF fid (some 0) = execReal fid 0 from rfl, hw]
    · rw [if_neg h0]
      simp only [Evaluate, ha]
  have hrebuild : ∀ fid : String,
      Evaluate (.Function fid sA) env = execF fid (some a) := by
    intro fid
    simp only [Evaluate, ha]
  unfold FuncSimplify
  by_cases h1 : id = "sin"
  · rw [if_pos h1]
    subst h1
    exact hfold0 "sin" 0 (by simp [execReal])
  rw [if_neg h1]
  by_cases h2 : id = "cos"
  · rw [if_pos h2]
    subst h2
    exact hfold0 "cos" 1 (by simp [execReal])
  rw [if_neg h2]
  by_cases h3 : id = "tan"
  · rw [if_pos h3]
    subst h3
    exact hfold0 "tan" 0 (by simp [execReal])
  rw [if_neg h3]
  by_cases h4 : id = "cot"
  · rw [if_pos h4]
    subst h4
    exact hrebuild "cot"
  rw [if_neg h4]
  by_cases h5 : id = "sec"
  · rw [if_pos h5]
    subst h5
    exact hfold0 "sec" 1 (by simp [execReal])
  rw [if_neg h5]
  by_cases h6 : id = "csc"
  · rw [if_pos h6]
    subst h6
    exact hrebuild "csc"
  rw [if_neg h6]
  by_cases h7 : id = "sinh"
  · rw [if_pos h7]
    subst h7
    exact hfold0 "sinh" 0 (by simp [execReal])
  rw [if_neg h7]
  by_cases h8 : id = "cosh"
  · rw [if_pos h8]
    subst h8
    exact hfold0 "cosh" 1 (by simp [execReal])
  rw [if_neg h8]
  by_cases h9 : id = "tanh"
  · rw [if_pos h9]
    subst h9
    exact hfold0 "tanh" 0 (by simp [execReal])
  rw [if_neg h9]
  by_cases h10 : id = "coth"
  · rw [if_pos h10]
    subst h10
    exact hrebuild "coth"
  rw [if_neg h10]
  by_cases h11 : id = "sech"
  · rw [if_pos h11]
    subst h11
    exact hfold0 "sech" 1 (by simp [execReal])
  rw [if_neg h11]
  by_cases h12 : id = "csch"
  · rw [if_pos h12]
    subst h12
    exact hrebuild "csch"
  rw [if_neg h12]
  by_cases h13 : id = "log"
  · rw [if_pos h13]
    subst h13
    cases h0 : numValue sA with
    | some v =>
      dsimp only
      obtain rfl := numValue_eq_some.mp h0
      simp only [Evaluate, Option.some.injEq] at ha
      by_cases hv1 : v = 1
      · subst hv1
        rw [if_pos rfl]
        show some (((0 : ℚ) : ℝ)) = execF "log" (some a)
        rw [← ha]
        show some (((0 : ℚ) : ℝ)) = some (Real.logb 10 ((1 : ℚ) : ℝ))
        norm_num [Real.logb_one]
      · rw [if_neg hv1]
        by_cases hv10 : v = 10
        · subst hv10
          rw [if_pos rfl]
          show some (((1 : ℚ) : ℝ)) = execF "log" (some a)
          rw [← ha]
          show some (((1 : ℚ) : ℝ)) = some (Real.logb 10 ((10 : ℚ) : ℝ))
          have hlog : Real.log (10 : ℝ) ≠ 0 :=
            ne_of_gt (Real.log_pos (by norm_num))
          norm_num [Real.logb, div_self hlog]
        · rw [if_neg hv10]
          exact hrebuild "log"
    | none =>
      dsimp only
      exact hrebuild "log"
  rw [if_neg h13]
  by_cases h14 : id = "ln"
  · rw [if_pos h14]
    subst h14
    cases h0 : numValue sA with
    | some v =>
      dsimp only
      obtain rfl := numValue_eq_some.mp h0
      simp only [Evaluate, Option.some.injEq] at ha
      by_cases hv1 : v = 1
      · subst hv1
        rw [if_pos rfl]
        show some (((0 : ℚ) : ℝ)) = execF "ln" (some a)
        rw [← ha]
        show some (((0 : ℚ) : ℝ)) = some (Real.log ((1 : ℚ) : ℝ))
        norm_num
      · rw [if_neg hv1]
        by_cases hve : (v : ℝ) = Real.exp 1
        · rw [if_pos hve]
          show some (((1 : ℚ) : ℝ)) = execF "ln" (some a)
          rw [← ha]
          show some (((1 : ℚ) : ℝ)) = some (Real.log (v : ℝ))
          rw [hve, Real.log_exp]
          norm_num
        · rw [if_neg hve]
          exact hrebuild "ln"
    | none =>
      cases sA with
      | Constant n =>
        dsimp only
        by_cases hn : n = "e"
        · subst hn
          rw [if_pos rfl]
          simp only [Evaluate] at ha
          have he : a = Real.exp 1 := by
            have hc : constValue "e" = some (Real.exp 1) := rfl
            rw [hc] at ha
            exact (Option.some.inj ha).symm
          show some (((1 : ℚ) : ℝ)) = execF "ln" (some a)
          rw [he]
          show some (((1 : ℚ) : ℝ)) = some (Real.log (Real.exp 1))
          rw [Real.log_exp]
          norm_num
        · rw [if_neg hn]
          exact hrebuild "ln"
      | Error m => exact hrebuild "ln"
      | Number v => simp [numValue] at h0
      | Variable n => exact hrebuild "ln"
      | Operator o2 l2 r2 => exact hrebuild "ln"
      | Equals l2 r2 => exact hrebuild "ln"
      | Differential v2 w2 n2 => exact hrebuild "ln"
      | Function f2 a2 => exact hrebuild "ln"
  rw [if_neg h14]
  by_cases h15 : id = "sqrt"
  · rw [if_pos h15]
    subst h15
    cases h0 : numValue sA with
    | some v =>
      dsimp only
      obtain rfl := numValue_eq_some.mp h0
      simp only [Evaluate, Option.some.injEq] at ha
      cases hsq : intSqrtQ v with
      | some k =>
        dsimp only
        have hv := intSqrtQ_spec hsq
        show some (((k : ℚ) : ℝ)) = execF "sqrt" (some a)
        rw [← ha]
        show some (((k : ℚ) : ℝ)) = some (Real.sqrt ((v : ℚ) : ℝ))
        rw [show (((v : ℚ)) : ℝ) = ((k : ℝ)) ^ 2 from hv, Real.sqrt_sq (by positivity)]
        norm_num
      | none =>
        dsimp only
        exact hrebuild "sqrt"
    | none =>
      dsimp only
      exact hrebuild "sqrt"
  rw [if_neg h15]
  by_cases h16 : id = "abs"
  · rw [if_pos h16]
    subst h16
    cases h0 : numValue sA with
    | some v =>
      dsimp only
      obtain rfl := numValue_eq_some.mp h0
      simp only [Evaluate, Option.some.injEq] at ha
      by_cases hv : v < 0
      · rw [if_pos hv]
        show some ((-v : ℚ) : ℝ) = execF "abs" (some a)
        rw [← ha]
        show some ((-v : ℚ) : ℝ) = some |((v : ℚ) : ℝ)|
        have hneg : ((v : ℚ) : ℝ) < 0 := by exact_mod_cast hv
        rw [abs_of_neg hneg]
        norm_num
      · rw [if_neg hv]
        show some ((v : ℚ) : ℝ) = execF "abs" (some a)
        rw [← ha]
        show some ((v : ℚ) : ℝ) = some |((v : ℚ) : ℝ)|
        have hpos : (0 : ℝ) ≤ ((v : ℚ) : ℝ) := by exact_mod_cast not_lt.mp hv
        rw [abs_of_nonneg hpos]
    | none =>
      dsimp only
      exact hrebuild "abs"
  rw [if_neg h16]
  exfalso
  apply hne
  show execReal id a = none
  exact execReal_unknown h1 h2 h3 h4 h5 h6 h7 h8 h9 h10 h11 h12 h13 h14 h15 h16 a

/-- Soundness of the operator rewrite dispatch. -/
theorem OperatorSimplify_sound (o : String) (sl sr : AstNode) (env : Env)
    (a b : ℝ) (ha : Evaluate sl env = some a) (hb : Evaluate sr env = some b)
    (hnz : o = "^" → ¬(a = 0 ∧ b = 0)) :
    Evaluate (OperatorSimplify o sl sr) env = vop o (some a) (some b) := by
  unfold OperatorSimplify
  by_cases h1 : o = "+"
  · subst h1
    rw [if_pos rfl, vop_add, vadd_some]
    exact PlusRule_sound _ _ _ _ _ ha hb
  rw [if_neg h1]
  by_cases h2 : o = "-"
  · subst h2
    rw [if_pos rfl, vop_sub, vsub_some]
    exact MinusRule_sound _ _ _ _ _ ha hb
  rw [if_neg h2]
  by_cases h3 : o = "*"
  · subst h3
    rw [if_pos rfl, vop_mul, vmul_some]
    exact MulRule_sound _ _ _ _ _ ha hb
  rw [if_neg h3]
  by_cases h4 : o = "/"
  · subst h4
    rw [if_pos rfl, vop_div, vdiv_some]
    exact DivRule_sound _ _ _ _ _ ha hb
  rw [if_neg h4]
  by_cases h5 : o = "^"
  · subst h5
    rw [if_pos rfl, vop_pow]
    exact PowRule_sound _ _ _ _ _ ha hb (hnz rfl)
  rw [if_neg h5]
  simp only [Evaluate, ha, hb]

/-- Value preservation of one full `Simplify` pass (the amended claim C2):
on a tree all of whose subterms evaluate to numbers under `env`, with no
`^` subterm taking `0^0`, simplification preserves the evaluated value
exactly. -/
theorem Simplify_preserves :
    ∀ (t : AstNode) (env : Env), evalDefinedDeep t env → noZeroPowZero t env →
      Evaluate (Simplify t) env = Evaluate t env := by
  intro t
  induction t with
  | Error m =>
    intro env hd hz
    simp only [evalDefinedDeep, Evaluate, ne_eq, not_true_eq_false] at hd
  | Number v => intro env hd hz; rfl
  | Variable n => intro env hd hz; rfl
  | Constant n => intro env hd hz; rfl
  | Equals l r ihl ihr =>
    intro env hd hz
    simp only [evalDefinedDeep, Evaluate, ne_eq, not_true_eq_false,
      false_and] at hd
  | Differential v w n =>
    intro env hd hz
    simp only [evalDefinedDeep, Evaluate, ne_eq, not_true_eq_false] at hd
  | Operator o l r ihl ihr =>
    intro env hd hz
    obtain ⟨hown, hdl, hdr⟩ := hd
    obtain ⟨hzp, hzl, hzr⟩ := hz
    obtain ⟨a, ha⟩ := Option.ne_none_iff_exists'.mp (evalDefinedDeep_ne_none hdl)
    obtain ⟨b, hb⟩ := Option.ne_none_iff_exists'.mp (evalDefinedDeep_ne_none hdr)
    have hsl : Evaluate (Simplify l) env = some a := by rw [ihl env hdl hzl, ha]
    have hsr : Evaluate (Simplify r) env = some b := by rw [ihr env hdr hzr, hb]
    have hsle : (Simplify l).isError = false := by
      by_cases hE : (Simplify l).isError = true
      · rw [isError_evaluate hE env] at hsl
        exact absurd hsl (by simp)
      · simpa using hE
    have hsre : (Simplify r).isError = false := by
      by_cases hE : (Simplify r).isError = true
      · rw [isError_evaluate hE env] at hsr
        exact absurd hsr (by simp)
      · simpa using hE
    have hstep : Simplify (.Operator o l r) = OperatorSimplify o (Simplify l) (Simplify r) := by
      simp only [Simplify, hsle, Bool.false_eq_true, if_false, hsre]
    rw [hstep]
    have hnz : o = "^" → ¬(a = 0 ∧ b = 0) := by
      intro ho ⟨ha0, hb0⟩
      apply hzp ho
      constructor
      · rw [ha, ha0]
      · rw [hb, hb0]
    rw [OperatorSimplify_sound o (Simplify l) (Simplify r) env a b hsl hsr hnz]
    simp only [Evaluate, ha, hb]
  | Function fid arg ih =>
    intro env hd hz
    obtain ⟨hown, hda⟩ := hd
    have hza : noZeroPowZero arg env := hz
    obtain ⟨av, hav⟩ := Option.ne_none_iff_exists'.mp (evalDefinedDeep_ne_none hda)
    have hsa : Evaluate (Simplify arg) env = some av := by rw [ih env hda hza, hav]
    have hae : arg.isError = false := by
      by_cases hE : arg.isError = true
      · rw [isError_evaluate hE env] at hav
        exact absurd hav (by simp)
      · simpa using hE
    have hstep : Simplify (.Function fid arg) = FuncSimplify fid (Simplify arg) := by
      simp only [Simplify, hae, Bool.false_eq_true, if_false]
    rw [hstep]
    have hne : execF fid (some av) ≠ none := by
      intro hcontra
      apply hown
      show execF fid (Evaluate arg env) = none
      rw [hav]
      exact hcontra
    rw [FuncSimplify_sound fid (Simplify arg) env av hsa hne]
    show execF fid (some av) = execF fid (Evaluate arg env)
    rw [hav]

/-! ## The claims -/

/-- C1, counterexample: `c1TreeA` contains an `Error` subtree, yet neither
`Differentiate` nor `Simplify` returns an `Error` node on it; `c1TreeB`
contains an `Error` subtree, yet `Evaluate` returns `1`, not NaN. -/
theorem C1_counterexample :
    containsError c1TreeA = true
      ∧ (Differentiate c1TreeA "x").isError = false
      ∧ (Simplify c1TreeA).isError = false
      ∧ containsError c1TreeB = true
      ∧ Evaluate c1TreeB (fun _ => none) = some 1 := by
  refine ⟨by decide, by decide, ?_, by decide, ?_⟩
  · simp [Simplify, FuncSimplify, SimpFoldAtZero, numValue, AstNode.isError]
  · simp [Evaluate, vop, vpow, c1TreeB]

/-- C1, amended: `Differentiate` and `Simplify` return an `Error` node for
every tree whose `Error` subtree is reachable from the root through
`Operator`/`Equals` nodes alone or sits as the immediate argument of such a
`Function` node; and `Evaluate` returns NaN for every tree containing an
`Error`, provided no `^` subterm has a left child evaluating to `1` or a
right child evaluating to `0` (the two inputs where C `pow` ignores NaN). -/
theorem C1_amended :
    ∀ (t : AstNode) (rt : String) (env : Env),
      (errAbsorbPath t = true →
        (Differentiate t rt).isError = true ∧ (Simplify t).isError = true)
      ∧ (containsError t = true → powSafe t env → Evaluate t env = none) :=
  fun t rt env =>
    ⟨fun h => ⟨errAbsorbPath_differentiate t rt h, errAbsorbPath_simplify t h⟩,
     fun h hp => containsError_evaluate t env h hp⟩

/-- C1 witness: the amended statement applied to a concrete tree. -/
theorem C1_amended_witness :
    errAbsorbPath c1TreeW = true ∧ containsError c1TreeW = true
      ∧ powSafe c1TreeW (fun _ => none)
      ∧ (Differentiate c1TreeW "x").isError = true
      ∧ (Simplify c1TreeW).isError = true
      ∧ Evaluate c1TreeW (fun _ => none) = none := by
  have h1 : errAbsorbPath c1TreeW = true := by decide
  have h2 : containsError c1TreeW = true := by decide
  have h3 : powSafe c1TreeW (fun _ => none) := by simp [powSafe, c1TreeW]
  obtain ⟨hab, hev⟩ := C1_amended c1TreeW "x" (fun _ => none)
  exact ⟨h1, h2, h3, (hab h1).1, (hab h1).2, hev h2 h3⟩

/-- C2, counterexample: `0 ^ x` has no `Error` subtree and the environment
binds its one free variable (to `0`), yet simplification rewrites it to
`Number 0` while the original evaluates to `pow(0, 0) = 1`. -/
theorem C2_counterexample :
    containsError c2Tree = false
      ∧ (∀ n ∈ freeVars c2Tree, c2Env n ≠ none)
      ∧ Evaluate (Simplify c2Tree) c2Env ≠ Evaluate c2Tree c2Env := by
  refine ⟨by decide, ?_, ?_⟩
  · intro n hn
    simp [freeVars, c2Tree] at hn
    simp [c2Env, hn]
  · have hs : Simplify c2Tree = .Number 0 := by
      simp [Simplify, c2Tree, OperatorSimplify, PowRule, numValue, AstNode.isError]
    rw [hs]
    have h1 : Evaluate c2Tree c2Env = some 1 := by
      simp [Evaluate, c2Tree, vop, vpow, c2Env]
    rw [h1]
    simp [Evaluate]

/-- C2, amended: for every tree and environment under which every subterm
evaluates to a (non-NaN) number, and in which no `^` subterm has both
children evaluating to `0`, a `Simplify` pass preserves the evaluated value
exactly (in the idealized real semantics standing in for "up to IEEE-754
rounding"). -/
theorem C2_amended :
    ∀ (t : AstNode) (env : Env), evalDefinedDeep t env → noZeroPowZero t env →
      Evaluate (Simplify t) env = Evaluate t env :=
  Simplify_preserves

/-- C2 witness: the amended statement applied to a concrete tree and
environment. -/
theorem C2_amended_witness :
    evalDefinedDeep c2TreeW c2EnvW ∧ noZeroPowZero c2TreeW c2EnvW
      ∧ Evaluate (Simplify c2TreeW) c2EnvW = Evaluate c2TreeW c2EnvW := by
  have hd : evalDefinedDeep c2TreeW c2EnvW := by
    simp [evalDefinedDeep, c2TreeW, Evaluate, c2EnvW, vop, vadd]
  have hz : noZeroPowZero c2TreeW c2EnvW := by
    simp [noZeroPowZero, c2TreeW]
  exact ⟨hd, hz, C2_amended c2TreeW c2EnvW hd hz⟩

/-- C3: the claim is right about 16 of the 17 listed ids, the constants and
idempotence, but `Init` never registers `ExponentialFunction`:
`GetFunction("exp")` is null after `Init()` (the code slip the claim
documents against). -/
theorem C3_init_omits_exp :
    getFunctionS (initS emptyState) "exp" = none
      ∧ (funcIds.all fun id => (getFunctionS (initS emptyState) id).isSome) = true
      ∧ getConstantValueS (initS emptyState) "e" = some (Real.exp 1)
      ∧ getConstantValueS (initS emptyState) "pi" = some Real.pi
      ∧ initS (initS emptyState) = initS emptyState := by
  refine ⟨?_, ?_, ?_, ?_, ?_⟩
  · simp [initS, emptyState, addFunctionS, addConstantS, getFunctionS, funcIds]
  · simp [initS, emptyState, addFunctionS, addConstantS, getFunctionS, funcIds]
  · simp [initS, emptyState, addFunctionS, addConstantS, getConstantValueS]
  · simp [initS, emptyState, addFunctionS, addConstantS, getConstantValueS]
  · rw [initS]
    simp [initS, emptyState, addFunctionS, addConstantS]

/-- C4, counterexample: `Tokenize("a-3")` does not produce the claimed
`[Variable, Operator, Number]`; the lexer's number alternative absorbs the
`-` into `-3` although the token to its left is a `Variable`. -/
theorem C4_counterexample :
    Tokenize "a-3" = [⟨.Variable, "a"⟩, ⟨.Number, "-3"⟩]
      ∧ Tokenize "a-3" ≠
        [⟨.Variable, "a"⟩, ⟨.Operator, "-"⟩, ⟨.Number, "3"⟩] := by
  exact ⟨by decide, by decide⟩

/-- C4, amended: `Tokenize("-3+x") = [Number(-3), Operator(+), Variable(x)]`
holds, but `Tokenize("a-3") = [Variable(a), Number(-3)]`: a `-` immediately
followed by a digit is always absorbed into one numeric literal by the
regex alternation, regardless of the token to its left.  A `-` not followed
by a digit lexes as an `Operator` and is then merged with the text of the
following match into a single `Number` token exactly when it is at
start-of-input or follows an `Operator` token or an opening parenthesis
(the modulus-delimiter condition is dead: `|` lexes as `Unknown`). -/
theorem C4_amended :
    Tokenize "-3+x" = [⟨.Number, "-3"⟩, ⟨.Operator, "+"⟩, ⟨.Variable, "x"⟩]
      ∧ Tokenize "a-3" = [⟨.Variable, "a"⟩, ⟨.Number, "-3"⟩]
      ∧ Tokenize "a*-3" = [⟨.Variable, "a"⟩, ⟨.Operator, "*"⟩, ⟨.Number, "-3"⟩]
      ∧ Tokenize "(-3)" = [⟨.Parenthesis, "("⟩, ⟨.Number, "-3"⟩, ⟨.Parenthesis, ")"⟩]
      ∧ Tokenize "|-3|" = [⟨.Unknown, "|"⟩, ⟨.Number, "-3"⟩, ⟨.Unknown, "|"⟩]
      ∧ Tokenize "a- 3" = [⟨.Variable, "a"⟩, ⟨.Operator, "-"⟩, ⟨.Number, "3"⟩]
      ∧ Tokenize "a*-x" = [⟨.Variable, "a"⟩, ⟨.Operator, "*"⟩, ⟨.Number, "-x"⟩] := by
  exact ⟨by decide, by decide, by decide, by decide, by decide, by decide, by decide⟩

/-- C5: the claim matches the evident intent (and the parser's own modulus
branch, which on `ModulusDelimiter` tokens yields `abs(-5)`, which evaluates
to `5` and simplifies to `Number 5`), but the lexer's duplicated parenthesis
test classifies `|` as `Unknown`, so `"|-5|"` actually parses to an `Error`
node. -/
theorem C5_modulus_broken :
    Tokenize "|-5|" = [⟨.Unknown, "|"⟩, ⟨.Number, "-5"⟩, ⟨.Unknown, "|"⟩]
      ∧ ParseTokens (Tokenize "|-5|") = .Error "unexpected token | (type = 8)"
      ∧ ParseTokens [⟨.ModulusDelimiter, "|"⟩, ⟨.Number, "-5"⟩,
          ⟨.ModulusDelimiter, "|"⟩] = .Function "abs" (.Number (-5))
      ∧ Evaluate (.Function "abs" (.Number (-5))) (fun _ => none) = some 5
      ∧ Simplify (.Function "abs" (.Number (-5))) = .Number 5 := by
  refine ⟨by decide, by decide, by decide, ?_, ?_⟩
  · simp [Evaluate, execF, execReal]
  · simp [Simplify, FuncSimplify, numValue, AstNode.isError]

/-- C6, counterexample: `Simplify(0^0)` is not the node unchanged: the
right-`Number`-zero rule catches the fall-through and returns `Number 1`. -/
theorem C6_counterexample :
    Simplify c6Tree = .Number 1 ∧ Simplify c6Tree ≠ c6Tree := by
  have hs : Simplify c6Tree = .Number 1 := by
    simp [Simplify, c6Tree, OperatorSimplify, PowRule, PowRest, numValue,
      AstNode.isError]
  exact ⟨hs, by rw [hs]; decide⟩

/-- C6, amended: the `^` simplification rules, keyed on the simplified
children: `0^R → Number 0` when the simplified `R` is not `Number 0`;
`0^0 → Number 1` (not left as-is: the `L^0 → 1` rule catches it);
`1^R → Number 1`; `L^1 →` the simplified `L`; `L^0 → Number 1`. -/
theorem C6_amended :
    ∀ l r : AstNode,
      ((Simplify r).isError = false → Simplify l = .Number 0 →
        numValue (Simplify r) ≠ some 0 →
        Simplify (.Operator "^" l r) = .Number 0)
      ∧ (Simplify l = .Number 0 → Simplify r = .Number 0 →
        Simplify (.Operator "^" l r) = .Number 1)
      ∧ ((Simplify r).isError = false → Simplify l = .Number 1 →
        Simplify (.Operator "^" l r) = .Number 1)
      ∧ ((Simplify l).isError = false → Simplify r = .Number 1 →
        Simplify (.Operator "^" l r) = Simplify l)
      ∧ ((Simplify l).isError = false → Simplify r = .Number 0 →
        Simplify (.Operator "^" l r) = .Number 1) := by
  intro l r
  have hgen : ∀ sl sr : AstNode, sl.isError = false → sr.isError = false →
      Simplify (.Operator "^" l r) = Simplify l → True := fun _ _ _ _ _ => trivial
  have hstep : ∀ (hl : (Simplify l).isError = false)
      (hr : (Simplify r).isError = false),
      Simplify (.Operator "^" l r) = PowRule (Simplify l) (Simplify r) := by
    intro hl hr
    simp only [Simplify, hl, hr, Bool.false_eq_true, if_false, OperatorSimplify]
    simp
  refine ⟨?_, ?_, ?_, ?_, ?_⟩
  · intro hr hl hnr
    rw [hstep (by rw [hl]; rfl) hr, hl]
    cases hv : numValue (Simplify r) with
    | none =>
      simp only [PowRule, numValue_Number, hv]
      simp
    | some rv =>
      simp only [PowRule, numValue_Number, hv]
      simp only [if_true]
      rw [if_pos (by intro h; exact hnr (by rw [hv, h]))]
  · intro hl hr
    rw [hstep (by rw [hl]; rfl) (by rw [hr]; rfl), hl, hr]
    simp [PowRule, PowRest, numValue]
  · intro hr hl
    rw [hstep (by rw [hl]; rfl) hr, hl]
    simp [PowRule, numValue]
  · intro hl hr
    rw [hstep hl (by rw [hr]; rfl), hr]
    cases hv : numValue (Simplify l) with
    | none =>
      simp only [PowRule, hv]
      simp [PowRest, numValue]
    | some lv =>
      obtain hsl := numValue_eq_some.mp hv
      rw [hsl]
      by_cases h0 : lv = 0
      · subst h0
        simp [PowRule, PowRest, numValue]
      · by_cases h1 : lv = 1
        · subst h1
          simp [PowRule, PowRest, numValue]
        · simp [PowRule, PowRest, numValue, h0, h1]
  · intro hl hr
    rw [hstep hl (by rw [hr]; rfl), hr]
    cases hv : numValue (Simplify l) with
    | none =>
      simp only [PowRule, hv]
      simp [PowRest, numValue]
    | some lv =>
      obtain hsl := numValue_eq_some.mp hv
      rw [hsl]
      by_cases h0 : lv = 0
      · subst h0
        simp [PowRule, PowRest, numValue]
      · by_cases h1 : lv = 1
        · subst h1
          simp [PowRule, PowRest, numValue]
        · simp [PowRule, PowRest, numValue, h0, h1]

/-- C6 witness: the amended rules applied at concrete trees. -/
theorem C6_amended_witness :
    Simplify (.Operator "^" (.Number 0) (.Variable "x")) = .Number 0
      ∧ Simplify (.Operator "^" (.Number 0) (.Number 0)) = .Number 1
      ∧ Simplify (.Operator "^" (.Number 1) (.Variable "x")) = .Number 1
      ∧ Simplify (.Operator "^" (.Variable "y") (.Number 1)) = .Variable "y"
      ∧ Simplify (.Operator "^" (.Variable "y") (.Number 0)) = .Number 1 := by
  refine ⟨?_, ?_, ?_, ?_, ?_⟩
  · exact ((C6_amended (.Number 0) (.Variable "x")).1
      (by simp [Simplify, AstNode.isError]) (by simp [Simplify])
      (by simp [Simplify, numValue]))
  · exact ((C6_amended (.Number 0) (.Number 0)).2.1
      (by simp [Simplify]) (by simp [Simplify]))
  · exact ((C6_amended (.Number 1) (.Variable "x")).2.2.1
      (by simp [Simplify, AstNode.isError]) (by simp [Simplify]))
  · have h := ((C6_amended (.Variable "y") (.Number 1)).2.2.2.1
      (by simp [Simplify, AstNode.isError]) (by simp [Simplify]))
    rw [h]
    simp [Simplify]
  · exact ((C6_amended (.Variable "y") (.Number 0)).2.2.2.2
      (by simp [Simplify, AstNode.isError]) (by simp [Simplify]))

/-- C7: derivatives of the leaves: numbers and named constants differentiate
to `Number 0`; a variable with respect to itself to `Number 1`; a variable
with respect to a different name to an order-1 `Differential`. -/
theorem C7_leaf_derivatives :
    ∀ (k : ℚ) (c u v : String),
      Differentiate (.Number k) v = .Number 0
        ∧ Differentiate (.Constant c) v = .Number 0
        ∧ Differentiate (.Variable v) v = .Number 1
        ∧ (u ≠ v → Differentiate (.Variable u) v = .Differential u v 1) := by
  intro k c u v
  refine ⟨rfl, rfl, by simp [Differentiate], ?_⟩
  intro h
  simp [Differentiate, h]

/-- C7 witness: the leaf derivatives at concrete inputs. -/
theorem C7_leaf_derivatives_witness :
    Differentiate (.Number 5) "x" = .Number 0
      ∧ Differentiate (.Constant "e") "x" = .Number 0
      ∧ Differentiate (.Variable "x") "x" = .Number 1
      ∧ Differentiate (.Variable "y") "x" = .Differential "y" "x" 1 := by
  obtain ⟨h1, h2, h3, h4⟩ := C7_leaf_derivatives 5 "e" "y" "x"
  exact ⟨h1, h2, h3, h4 (by decide)⟩

/-- C8: `"a+b*c^d"` parses to `a + (b * (c^d))`, and each binary operator
(including `^` and `=`) associates to the left. -/
theorem C8_precedence_left_assoc :
    ParseTokens (Tokenize "a+b*c^d") =
      .Operator "+" (.Variable "a")
        (.Operator "*" (.Variable "b")
          (.Operator "^" (.Variable "c") (.Variable "d")))
      ∧ ParseTokens (Tokenize "a^b^c") =
        .Operator "^" (.Operator "^" (.Variable "a") (.Variable "b")) (.Variable "c")
      ∧ ParseTokens (Tokenize "a+b+c") =
        .Operator "+" (.Operator "+" (.Variable "a") (.Variable "b")) (.Variable "c")
      ∧ ParseTokens (Tokenize "a-b-c") =
        .Operator "-" (.Operator "-" (.Variable "a") (.Variable "b")) (.Variable "c")
      ∧ ParseTokens (Tokenize "a*b*c") =
        .Operator "*" (.Operator "*" (.Variable "a") (.Variable "b")) (.Variable "c")
      ∧ ParseTokens (Tokenize "a/b/c") =
        .Operator "/" (.Operator "/" (.Variable "a") (.Variable "b")) (.Variable "c")
      ∧ ParseTokens (Tokenize "a=b=c") =
        .Equals (.Equals (.Variable "a") (.Variable "b")) (.Variable "c") := by
  exact ⟨by decide, by decide, by decide, by decide, by decide, by decide, by decide⟩

/-- C9, counterexample: a second `AddConstant` under the same name does not
leave the registry's mapping unchanged: the assignment overwrites. -/
theorem C9_counterexample :
    getConstantValueS
        (addConstantS (addConstantS (initS emptyState) "tau" 1) "tau" 2) "tau"
      = some 2
      ∧ getConstantValueS (addConstantS (initS emptyState) "tau" 1) "tau" = some 1
      ∧ (some (2 : ℝ)) ≠ some 1 := by
  refine ⟨?_, ?_, by norm_num⟩
  · simp [addConstantS, getConstantValueS]
  · simp [addConstantS, getConstantValueS]

/-- C9, amended: for `AddFunction` the first registration wins (a second
registration under a present id leaves the registry unchanged), but
`AddConstant` assigns unconditionally, so for constants the last
registration wins. -/
theorem C9_amended :
    (∀ (s : ConfigState) (id : String) (e : FuncEntry),
      (s.funcs id).isSome = true → addFunctionS s id e = s)
      ∧ ∀ (s : ConfigState) (n : String) (v : ℝ),
        getConstantValueS (addConstantS s n v) n = some v := by
  constructor
  · intro s id e h
    unfold addFunctionS
    rw [if_pos h]
  · intro s n v
    simp [addConstantS, getConstantValueS]

/-- C9 witness: the amended statement applied to the initialized registry. -/
theorem C9_amended_witness :
    ((initS emptyState).funcs "sin").isSome = true
      ∧ addFunctionS (initS emptyState) "sin" .sineF = initS emptyState
      ∧ getConstantValueS (addConstantS (initS emptyState) "tau" 1) "tau"
        = some 1 := by
  have h : ((initS emptyState).funcs "sin").isSome = true := by
    simp [initS, emptyState, addFunctionS, addConstantS]
  exact ⟨h, C9_amended.1 (initS emptyState) "sin" .sineF h,
    C9_amended.2 (initS emptyState) "tau" 1⟩

/-- C10: differentiating `dV/dW` of order `n` with respect to `W` gives the
order-`n+1` differential; with respect to another variable `t` it gives the
product of the order-`n+1` differential and `dW/dt`; `Simplify` returns an
identical differential. -/
theorem C10_differential_ops :
    ∀ (V W t : String) (n : Int),
      Differentiate (.Differential V W n) W = .Differential V W (n + 1)
        ∧ (t ≠ W → Differentiate (.Differential V W n) t =
            .Operator "*" (.Differential V W (n + 1)) (.Differential W t 1))
        ∧ Simplify (.Differential V W n) = .Differential V W n := by
  intro V W t n
  refine ⟨by simp [Differentiate], ?_, rfl⟩
  intro h
  simp [Differentiate, h]

/-- C10 witness: the differential operations at concrete inputs. -/
theorem C10_differential_ops_witness :
    Differentiate (.Differential "y" "x" 1) "x" = .Differential "y" "x" 2
      ∧ Differentiate (.Differential "y" "x" 1) "t" =
        .Operator "*" (.Differential "y" "x" 2) (.Differential "x" "t" 1)
      ∧ Simplify (.Differential "y" "x" 1) = .Differential "y" "x" 1 := by
  obtain ⟨h1, h2, h3⟩ := C10_differential_ops "y" "x" "t" 1
  refine ⟨by rw [h1]; norm_num, ?_, h3⟩
  rw [h2 (by decide)]
  norm_num

end ExprSpec
